import Mathlib

set_option maxRecDepth 8192

/-!
# Verification of the GitHub activity monitor pipeline

A shallow embedding of `src/github_monitor.py`: the persistent store
(sqlite tables as association lists), the metadata enricher, the message
formatter, the two channel dispatchers (DingTalk / Feishu) with their
HMAC-SHA256 signing schemes, and the poll loop.  Bytes are `Nat` values
below 256; machine words are `Nat` reduced modulo `2 ^ 32`.
-/

namespace GithubMonitor

/-! ## Bytes and UTF-8 (`str.encode("utf-8")`) -/

/-- `2 ^ 32`, the word modulus for SHA-256 arithmetic. -/
def M32 : Nat := 4294967296

/-- UTF-8 encoding of a single code point, as bytes. -/
def utf8Char (c : Char) : List Nat :=
  let n := c.toNat
  if n < 128 then [n]
  else if n < 2048 then [192 + n / 64, 128 + n % 64]
  else if n < 65536 then [224 + n / 4096, 128 + n / 64 % 64, 128 + n % 64]
  else [240 + n / 262144, 128 + n / 4096 % 64, 128 + n / 64 % 64, 128 + n % 64]

/-- UTF-8 encoding of a string, as bytes (Python `s.encode("utf-8")`). -/
def utf8 (s : String) : List Nat := (s.data.map utf8Char).flatten

/-! ## SHA-256 (`hashlib.sha256`) -/

/-- Right rotation of a 32-bit word. -/
def rotr32 (n x : Nat) : Nat := ((x >>> n) ||| (x <<< (32 - n))) % M32

/-- The SHA-256 round constants. -/
def shaK : List Nat :=
  [1116352408, 1899447441, 3049323471, 3921009573, 961987163, 1508970993,
   2453635748, 2870763221, 3624381080, 310598401, 607225278, 1426881987,
   1925078388, 2162078206, 2614888103, 3248222580, 3835390401, 4022224774,
   264347078, 604807628, 770255983, 1249150122, 1555081692, 1996064986,
   2554220882, 2821834349, 2952996808, 3210313671, 3336571891, 3584528711,
   113926993, 338241895, 666307205, 773529912, 1294757372, 1396182291,
   1695183700, 1986661051, 2177026350, 2456956037, 2730485921, 2820302411,
   3259730800, 3345764771, 3516065817, 3600352804, 4094571909, 275423344,
   430227734, 506948616, 659060556, 883997877, 958139571, 1322822218,
   1537002063, 1747873779, 1955562222, 2024104815, 2227730452, 2361852424,
   2428436474, 2756734187, 3204031479, 3329325298]

/-- The SHA-256 initial hash state. -/
structure ShaState where
  a : Nat
  b : Nat
  c : Nat
  d : Nat
  e : Nat
  f : Nat
  g : Nat
  h : Nat

/-- Initial SHA-256 state. -/
def shaInit : ShaState :=
  ⟨1779033703, 3144134277, 1013904242, 2773480762,
   1359893119, 2600822924, 528734635, 1541459225⟩

/-- Big-endian 8-byte encoding of a length in bits. -/
def be64 (n : Nat) : List Nat :=
  [n >>> 56 % 256, n >>> 48 % 256, n >>> 40 % 256, n >>> 32 % 256,
   n >>> 24 % 256, n >>> 16 % 256, n >>> 8 % 256, n % 256]

/-- SHA-256 message padding: append `0x80`, zero bytes to 56 mod 64, then
the bit length as 8 big-endian bytes. -/
def sha256pad (msg : List Nat) : List Nat :=
  msg ++ [128] ++ List.replicate ((119 - msg.length % 64) % 64) 0
    ++ be64 (msg.length * 8)

/-- Split a byte list into 64-byte chunks (fuel-driven for kernel reduction). -/
def chunks64 : Nat → List Nat → List (List Nat)
  | 0, _ => []
  | _, [] => []
  | fuel + 1, l => l.take 64 :: chunks64 fuel (l.drop 64)

/-- Pack bytes into big-endian 32-bit words. -/
def bytesToWords : List Nat → List Nat
  | a :: b :: c :: d :: rest => (((a * 256 + b) * 256 + c) * 256 + d) :: bytesToWords rest
  | _ => []

/-- Extend the reversed message schedule by `n` further words. -/
def extendSchedule : Nat → List Nat → List Nat
  | 0, wrev => wrev
  | n + 1, wrev =>
    let g := fun k => ((wrev.drop k).headD 0)
    let x0 := g 14
    let s0 := (rotr32 7 x0) ^^^ (rotr32 18 x0) ^^^ (x0 >>> 3)
    let x1 := g 1
    let s1 := (rotr32 17 x1) ^^^ (rotr32 19 x1) ^^^ (x1 >>> 10)
    extendSchedule n (((g 15 + s0 + g 6 + s1) % M32) :: wrev)

/-- The 64-word message schedule of one chunk. -/
def schedule (chunk : List Nat) : List Nat :=
  (extendSchedule 48 (bytesToWords chunk).reverse).reverse

/-- One SHA-256 compression round. -/
def compressStep (st : ShaState) (kw : Nat × Nat) : ShaState :=
  let S1 := (rotr32 6 st.e) ^^^ (rotr32 11 st.e) ^^^ (rotr32 25 st.e)
  let ch := (st.e &&& st.f) ^^^ ((M32 - 1 - st.e) &&& st.g)
  let temp1 := (st.h + S1 + ch + kw.1 + kw.2) % M32
  let S0 := (rotr32 2 st.a) ^^^ (rotr32 13 st.a) ^^^ (rotr32 22 st.a)
  let maj := (st.a &&& st.b) ^^^ (st.a &&& st.c) ^^^ (st.b &&& st.c)
  let temp2 := (S0 + maj) % M32
  ⟨(temp1 + temp2) % M32, st.a, st.b, st.c, (st.d + temp1) % M32, st.e, st.f, st.g⟩

/-- Process one 64-byte chunk. -/
def sha256chunk (st : ShaState) (chunk : List Nat) : ShaState :=
  let w := schedule chunk
  let r := (List.zip shaK w).foldl compressStep st
  ⟨(st.a + r.a) % M32, (st.b + r.b) % M32, (st.c + r.c) % M32, (st.d + r.d) % M32,
   (st.e + r.e) % M32, (st.f + r.f) % M32, (st.g + r.g) % M32, (st.h + r.h) % M32⟩

/-- Big-endian 4-byte encoding of a 32-bit word. -/
def wordBytes (n : Nat) : List Nat :=
  [n >>> 24 % 256, n >>> 16 % 256, n >>> 8 % 256, n % 256]

/-- SHA-256 digest of a byte list, as 32 bytes. -/
def sha256 (msg : List Nat) : List Nat :=
  let padded := sha256pad msg
  let st := (chunks64 padded.length padded).foldl sha256chunk shaInit
  wordBytes st.a ++ wordBytes st.b ++ wordBytes st.c ++ wordBytes st.d ++
  wordBytes st.e ++ wordBytes st.f ++ wordBytes st.g ++ wordBytes st.h

/-! ## HMAC-SHA256 (`hmac.new(key, msg, hashlib.sha256).digest()`) -/

/-- HMAC-SHA256 of `msg` keyed by `key`, as 32 bytes. -/
def hmacSha256 (key msg : List Nat) : List Nat :=
  let k0 := if key.length > 64 then sha256 key else key
  let k := k0 ++ List.replicate (64 - k0.length) 0
  let ipadded := k.map (fun b => b ^^^ 54)
  let opadded := k.map (fun b => b ^^^ 92)
  sha256 (opadded ++ sha256 (ipadded ++ msg))

/-! ## Base64 (`base64.b64encode`) -/

/-- The base64 alphabet. -/
def b64char (n : Nat) : Char :=
  (("ABCDEFGHIJKLMNOPQRSTUVWXYZabcdefghijklmnopqrstuvwxyz0123456789+/").data.drop n).headD 'A'

/-- Standard base64 encoding with padding, as characters. -/
def b64encodeChars : List Nat → List Char
  | [] => []
  | [a] => [b64char (a / 4), b64char (a % 4 * 16), '=', '=']
  | [a, b] => [b64char (a / 4), b64char (a % 4 * 16 + b / 16), b64char (b % 16 * 4), '=']
  | a :: b :: c :: rest =>
    b64char (a / 4) :: b64char (a % 4 * 16 + b / 16) ::
    b64char (b % 16 * 4 + c / 64) :: b64char (c % 64) :: b64encodeChars rest

/-- `base64.b64encode(bytes).decode("utf-8")` as a string. -/
def b64encode (bs : List Nat) : String := ⟨b64encodeChars bs⟩

/-! ## URL percent-encoding (`urllib.parse.quote_plus`) -/

/-- Uppercase hexadecimal digit. -/
def hexDigit (n : Nat) : Char := (("0123456789ABCDEF").data.drop n).headD '0'

/-- `urllib.parse.quote_plus` on one character: spaces become `+`,
ASCII alphanumerics and `_.-~` pass through, everything else is
percent-encoded byte-wise over its UTF-8 encoding. -/
def quotePlusChar (c : Char) : List Char :=
  if c = ' ' then ['+']
  else if c.isAlphanum ∨ c = '_' ∨ c = '.' ∨ c = '-' ∨ c = '~' then [c]
  else ((utf8Char c).map (fun b => ['%', hexDigit (b / 16), hexDigit (b % 16)])).flatten

/-- `urllib.parse.quote_plus` on a string. -/
def quotePlus (s : String) : String := ⟨(s.data.map quotePlusChar).flatten⟩

/-! ## Webhook signatures (`Notifier._generate_dingtalk_sign`, `_generate_feishu_sign`) -/

/-- `Notifier._generate_dingtalk_sign`: HMAC-SHA256 of `"{timestamp}\n{secret}"`
keyed by the secret, base64-encoded, then `quote_plus`-percent-encoded. -/
def generate_dingtalk_sign (secret timestamp : String) : String :=
  let string_to_sign := timestamp ++ "\n" ++ secret
  let hmac_code := hmacSha256 (utf8 secret) (utf8 string_to_sign)
  quotePlus (b64encode hmac_code)

/-- `Notifier._generate_feishu_sign`: HMAC-SHA256 of `"{timestamp}\n{secret}"`
keyed by the secret, base64-encoded with no further URL-encoding. -/
def generate_feishu_sign (secret timestamp : String) : String :=
  let string_to_sign := timestamp ++ "\n" ++ secret
  let hmac_code := hmacSha256 (utf8 secret) (utf8 string_to_sign)
  b64encode hmac_code

/-! ## The persistent store (`Database` over sqlite)

The three tables become association lists kept in insertion order; `now`
(the wall clock read by `datetime.now().isoformat()`) is passed in
explicitly. -/

/-- A row of the `repo_cache` table (minus the key and refresh time):
`description`, `language` may be SQL NULL, `stars` is an integer. -/
structure RepoRow where
  description : Option String
  language : Option String
  stars : Nat
deriving DecidableEq

/-- The persistent store: `pushed_events` (event id, pushed_at),
`repo_cache` and `user_cache` keyed by primary key. -/
structure Store where
  pushed_events : List (String × String)
  repo_cache : List (String × RepoRow)
  user_cache : List (String × String)
deriving DecidableEq

/-- The freshly initialised store (`Database._init_db` on a new file). -/
def Store.empty : Store := ⟨[], [], []⟩

/-- Association-list lookup, first match wins (a primary key occurs at
most once, so order is immaterial). -/
def alistFind {α : Type} (k : String) : List (String × α) → Option α
  | [] => none
  | (k', v) :: rest => if k' = k then some v else alistFind k rest

/-- `INSERT OR REPLACE` upsert on an association list: replace the row in
place when the key exists, append otherwise. -/
def alistUpsert {α : Type} (k : String) (v : α) : List (String × α) → List (String × α)
  | [] => [(k, v)]
  | (k', v') :: rest => if k' = k then (k, v) :: rest else (k', v') :: alistUpsert k v rest

/-- `Database.is_pushed`: `SELECT 1 FROM pushed_events WHERE event_id=?`. -/
def Database.is_pushed (s : Store) (event_id : String) : Bool :=
  (alistFind event_id s.pushed_events).isSome

/-- The plain `INSERT` into `pushed_events`: fails with an
`IntegrityError` when the primary key already has a row. -/
def Database.insert_pushed (s : Store) (event_id now : String) :
    Except Unit Store :=
  if (alistFind event_id s.pushed_events).isSome then .error ()
  else .ok { s with pushed_events := s.pushed_events ++ [(event_id, now)] }

/-- `Database.mark_pushed`: the insert with the `except
sqlite3.IntegrityError: pass` handler — a duplicate insert is a no-op. -/
def Database.mark_pushed (s : Store) (event_id now : String) : Store :=
  match Database.insert_pushed s event_id now with
  | .ok s' => s'
  | .error _ => s

/-- `Database.get_repo_info`: the cached `(description, language, stars)`
row, or `None`. -/
def Database.get_repo_info (s : Store) (repo_name : String) : Option RepoRow :=
  alistFind repo_name s.repo_cache

/-- A repository JSON body from `GET /repos/{name}`: the fields the
program reads, each possibly absent. -/
structure RepoJson where
  description : Option String
  language : Option String
  stargazers_count : Option Nat
deriving DecidableEq

/-- `Database.cache_repo_info`: upsert of
`(name, info.get("description"), info.get("language"),
info.get("stargazers_count", 0), now)`. -/
def Database.cache_repo_info (s : Store) (repo_name : String) (info : RepoJson) : Store :=
  let row : RepoRow := ⟨info.description, info.language, info.stargazers_count.getD 0⟩
  { s with repo_cache := alistUpsert repo_name row s.repo_cache }

/-- `Database.get_user_avatar`: cached avatar URL or `None`. -/
def Database.get_user_avatar (s : Store) (login : String) : Option String :=
  alistFind login s.user_cache

/-- `Database.cache_user_avatar`: upsert of `(login, avatar_url, now)`. -/
def Database.cache_user_avatar (s : Store) (login avatar_url : String) : Store :=
  { s with user_cache := alistUpsert login avatar_url s.user_cache }

/-! ## The metadata enricher (`Notifier._get_repo_details`, `_get_user_avatar`)

A remote lookup is an oracle from the key to what `requests.get` produced:
a decoded body on HTTP 200, a non-200 status, or a raised exception
(timeout, connection error, malformed response body). -/

/-- Outcome of one `requests.get` call, with the decoded JSON body. -/
inductive Fetch (α : Type) : Type
  | ok (body : α)
  | status (code : Nat)
  | exn (msg : String)
deriving DecidableEq

/-- The repo-details value returned to the formatter. -/
structure RepoDetails where
  description : Option String
  language : Option String
  stargazers_count : Nat
deriving DecidableEq

/-- The safe default sentinel returned on any enrichment failure:
`{"description": "暂无描述", "language": "", "stargazers_count": 0}`. -/
def repoSentinel : RepoDetails := ⟨some "暂无描述", some "", 0⟩

/-- `Notifier._get_repo_details`. Returns the details, the updated store
and the number of network requests issued (0 or 1). Every failure of the
remote lookup is caught and degrades to `repoSentinel`. -/
def get_repo_details (net : String → Fetch RepoJson) (s : Store)
    (repo_name : String) : RepoDetails × Store × Nat :=
  match Database.get_repo_info s repo_name with
  | some cached => (⟨cached.description, cached.language, cached.stars⟩, s, 0)
  | none =>
    match net repo_name with
    | .ok data =>
      (⟨data.description, data.language, data.stargazers_count.getD 0⟩,
       Database.cache_repo_info s repo_name data, 1)
    | .status _ => (repoSentinel, s, 1)
    | .exn _ => (repoSentinel, s, 1)

/-- The placeholder avatar returned when the user lookup fails. -/
def avatarPlaceholder : String := "https://github.com/identicons/app.png"

/-- `Notifier._get_user_avatar`: same cache-then-fetch-then-degrade
pattern; the 200 body contributes `json().get("avatar_url", "")`. -/
def get_user_avatar (unet : String → Fetch (Option String)) (s : Store)
    (login : String) : String × Store × Nat :=
  match Database.get_user_avatar s login with
  | some cached => (cached, s, 0)
  | none =>
    match unet login with
    | .ok body =>
      let avatar_url := body.getD ""
      (avatar_url, Database.cache_user_avatar s login avatar_url, 1)
    | .status _ => (avatarPlaceholder, s, 1)
    | .exn _ => (avatarPlaceholder, s, 1)

/-! ## The message formatter (`Notifier.format_message`)

A feed event carries the fields the program reads; each access
`event[...]` of a missing field raises a `KeyError`, so every field the
formatter touches is optional here, except the identifier (read by the
poll loop, outside the formatter's `try`). -/

/-- `event["payload"]["release"]`: name and tag of a release. -/
structure ReleaseJson where
  name : Option String
  tag_name : Option String
deriving DecidableEq

/-- One feed event as the program reads it. -/
structure Event where
  id : String
  type : Option String
  actor_login : Option String
  repo_name : Option String
  created_at : Option String
  payload_release : Option ReleaseJson
deriving DecidableEq

/-- Numeric value of an ASCII digit. -/
def digitVal (c : Char) : Option Nat :=
  if c.isDigit then some (c.toNat - 48) else none

/-- Day count of a month, with the Gregorian leap rule (as validated by
the `datetime` constructor). -/
def daysInMonth (year month : Nat) : Nat :=
  if month = 2 then
    if year % 4 = 0 ∧ (year % 100 ≠ 0 ∨ year % 400 = 0) then 29 else 28
  else if month = 4 ∨ month = 6 ∨ month = 9 ∨ month = 11 then 30
  else 31

/-- A parsed wire timestamp. -/
structure DateTime where
  year : Nat
  month : Nat
  day : Nat
  hour : Nat
  minute : Nat
  second : Nat
deriving DecidableEq

/-- `datetime.strptime(s, "%Y-%m-%dT%H:%M:%SZ")` on the zero-padded
fixed-width instances of the format that the feed emits, including the
range validation `strptime`/`datetime` performs; anything else fails. -/
def strptime_github (s : String) : Option DateTime :=
  match s.data with
  | [y1, y2, y3, y4, '-', m1, m2, '-', d1, d2, 'T',
     h1, h2, ':', n1, n2, ':', c1, c2, 'Z'] =>
    match digitVal y1, digitVal y2, digitVal y3, digitVal y4, digitVal m1,
        digitVal m2, digitVal d1, digitVal d2, digitVal h1, digitVal h2,
        digitVal n1, digitVal n2, digitVal c1, digitVal c2 with
    | some a1, some a2, some a3, some a4, some b1, some b2, some e1, some e2,
      some f1, some f2, some g1, some g2, some k1, some k2 =>
      let year := ((a1 * 10 + a2) * 10 + a3) * 10 + a4
      let month := b1 * 10 + b2
      let day := e1 * 10 + e2
      let hour := f1 * 10 + f2
      let minute := g1 * 10 + g2
      let second := k1 * 10 + k2
      if 1 ≤ year ∧ 1 ≤ month ∧ month ≤ 12 ∧ 1 ≤ day ∧
          day ≤ daysInMonth year month ∧ hour ≤ 23 ∧ minute ≤ 59 ∧ second ≤ 59
      then some ⟨year, month, day, hour, minute, second⟩
      else none
    | _, _, _, _, _, _, _, _, _, _, _, _, _, _ => none
  | _ => none

/-- Zero-padded two-digit rendering. -/
def pad2 (n : Nat) : String := if n < 10 then "0" ++ toString n else toString n

/-- Zero-padded four-digit rendering. -/
def pad4 (n : Nat) : String :=
  if n < 10 then "000" ++ toString n
  else if n < 100 then "00" ++ toString n
  else if n < 1000 then "0" ++ toString n
  else toString n

/-- `.strftime("%Y-%m-%d %H:%M")`. -/
def strftime_display (t : DateTime) : String :=
  pad4 t.year ++ "-" ++ pad2 t.month ++ "-" ++ pad2 t.day ++ " " ++
  pad2 t.hour ++ ":" ++ pad2 t.minute

/-- How a Python f-string renders a value that may be `None`. -/
def pyStr (o : Option String) : String := o.getD "None"

/-- The fixed event-type → action-label table in `format_message`. -/
def actions_map (t : String) : Option String :=
  if t = "WatchEvent" then some "⭐ Starred"
  else if t = "ForkEvent" then some "🍴 Forked"
  else if t = "PullRequestEvent" then some "🔀 提交PR到"
  else if t = "IssuesEvent" then some "❗ 创建Issue"
  else if t = "PushEvent" then some "⬆️ 推送代码到"
  else if t = "CreateEvent" then some "🆕 创建"
  else if t = "ReleaseEvent" then some "🚀 发布了新版本"
  else none

/-- The `try` body of `format_message`: assembles the notification text,
threading the store through the two enrichment calls. A raised exception
is an `.error` carrying the exception text and the store as mutated so
far (the in-place `sqlite` writes before the raise persist). -/
def assemble_message (net : String → Fetch RepoJson)
    (unet : String → Fetch (Option String)) (s : Store) (event : Event) :
    Except (String × Store) (String × Store) := do
  let event_type ← match event.type with
    | some t => .ok t
    | none => .error ("'type'", s)
  let actor ← match event.actor_login with
    | some a => .ok a
    | none => .error ("'login'", s)
  let (avatar, s1, _) := get_user_avatar unet s actor
  let actor_avatar := avatar ++ "?size=20"
  let repo_name ← match event.repo_name with
    | some r => .ok r
    | none => .error ("'name'", s1)
  let repo_url := "https://github.com/" ++ repo_name
  let time_str ← match event.created_at with
    | none => .error ("strptime() argument 1 must be str, not None", s1)
    | some ca =>
      match strptime_github ca with
      | none => .error ("time data '" ++ ca ++
          "' does not match format '%Y-%m-%dT%H:%M:%SZ'", s1)
      | some t => .ok (strftime_display t)
  let (repo_info, s2, _) := get_repo_details net s1 repo_name
  let description := repo_info.description
  let language := repo_info.language
  let stars := repo_info.stargazers_count
  let release_info ←
    if event_type = "ReleaseEvent" then
      match event.payload_release with
      | none => .error ("'release'", s2)
      | some rel =>
        .ok ("\n**版本**: " ++ rel.tag_name.getD "" ++ " " ++ rel.name.getD "")
    else .ok ""
  .ok (String.intercalate "\n"
    ["### ✨ GitHub动态通知",
     "![用户头像](" ++ actor_avatar ++ ") **[" ++ actor ++ "](https://github.com/" ++ actor ++ ")**",
     "**⌚ 时间**: " ++ time_str,
     "**🔧 操作**: " ++ (actions_map event_type).getD event_type,
     "**📦 仓库**: [" ++ repo_name ++ "](" ++ repo_url ++ ")",
     "**📝 描述**: " ++ pyStr description ++ release_info,
     "**🌐 语言**: " ++ pyStr language ++ " | **⭐ Stars**: " ++ toString stars,
     "---"], s2)

/-- The minimal fallback document returned when assembly raises. -/
def fallback_message (e : String) : String :=
  String.intercalate "\n"
    ["### GitHub动态通知",
     "**警告**: 消息格式化出错",
     "```" ++ "\n" ++ e ++ "\n" ++ "```"]

/-- `Notifier.format_message`: the `try`/`except` wrapper — on any
exception during assembly, log and return the fallback document. -/
def format_message (net : String → Fetch RepoJson)
    (unet : String → Fetch (Option String)) (s : Store) (event : Event) :
    String × Store :=
  match assemble_message net unet s event with
  | .ok (msg, s') => (msg, s')
  | .error (e, s') => (fallback_message e, s')

/-! ## URL and query-string plumbing (`urllib.parse`)

`urlparse`/`urlunparse` reduced to the parts the program manipulates:
everything before the first `?` (after stripping a fragment at the first
`#`), the query, and the fragment. `unquote_plus` is modelled byte-wise
(exact on ASCII, which covers every string the program feeds it). -/

/-- Split at the first occurrence of `sep`: the part before, and the part
after when `sep` occurs at all. -/
def splitFirst (sep : Char) : List Char → List Char × Option (List Char)
  | [] => ([], none)
  | c :: rest =>
    if c = sep then ([], some rest)
    else
      let r := splitFirst sep rest
      (c :: r.1, r.2)

/-- The components `urlparse` splits off that the program touches:
scheme/netloc/path/params collapse into `base`. -/
structure UrlParts where
  base : List Char
  query : List Char
  fragment : List Char
deriving DecidableEq

/-- `urllib.parse.urlparse`, reduced: fragment at the first `#`, then
query at the first `?`. -/
def urlparseLite (url : List Char) : UrlParts :=
  let f := splitFirst '#' url
  let q := splitFirst '?' f.1
  ⟨q.1, (q.2).getD [], (f.2).getD []⟩

/-- `urllib.parse.urlunparse` on `parsed._replace(query=...)`: `?` and
`#` are re-attached only before non-empty components. -/
def urlunparseLite (u : UrlParts) : List Char :=
  u.base ++ (if u.query = [] then [] else '?' :: u.query)
    ++ (if u.fragment = [] then [] else '#' :: u.fragment)

/-- Split on every occurrence of `sep` (Python `str.split(sep)`). -/
def splitAll (sep : Char) : List Char → List (List Char)
  | [] => [[]]
  | c :: rest =>
    match splitAll sep rest with
    | [] => [[]]
    | p :: ps => if c = sep then [] :: p :: ps else (c :: p) :: ps

/-- Join with a separator character. -/
def joinSep (sep : Char) : List (List Char) → List Char
  | [] => []
  | [x] => x
  | x :: xs => x ++ sep :: joinSep sep xs

/-- Value of a hexadecimal digit. -/
def hexVal (c : Char) : Option Nat :=
  if '0' ≤ c ∧ c ≤ '9' then some (c.toNat - 48)
  else if 'a' ≤ c ∧ c ≤ 'f' then some (c.toNat - 87)
  else if 'A' ≤ c ∧ c ≤ 'F' then some (c.toNat - 55)
  else none

/-- `urllib.parse.unquote_plus`: `+` becomes a space, `%XX` decodes to
the byte `XX`, malformed escapes pass through. Decoded bytes are mapped
to their code points, which is exact for ASCII input. -/
def unquoteCharsAux : Nat → List Char → List Char
  | 0, l => l
  | _ + 1, [] => []
  | fuel + 1, c :: rest =>
    if c = '+' then ' ' :: unquoteCharsAux fuel rest
    else if c = '%' then
      match rest with
      | h1 :: h2 :: rest' =>
        match hexVal h1, hexVal h2 with
        | some a, some b => Char.ofNat (16 * a + b) :: unquoteCharsAux fuel rest'
        | _, _ => '%' :: unquoteCharsAux fuel rest
      | _ => '%' :: unquoteCharsAux fuel rest
    else c :: unquoteCharsAux fuel rest

/-- `unquote_plus` with the fuel instantiated. -/
def unquoteChars (l : List Char) : List Char := unquoteCharsAux l.length l

/-- One `name=value` field of a query string, as `parse_qsl` treats it
with `keep_blank_values=False`: empty fields, fields without `=`, and
fields with an empty value are all dropped; name and value are
`unquote_plus`-decoded. -/
def parsePair (field : List Char) : Option (List Char × List Char) :=
  if field = [] then none
  else
    match splitFirst '=' field with
    | (_, none) => none
    | (nm, some v) =>
      if v = [] then none else some (unquoteChars nm, unquoteChars v)

/-- Append a parsed pair to the `parse_qs` dictionary: an existing key
collects the value in place, a new key goes to the end. -/
def qsInsert (k : List Char) (v : List Char) :
    List (List Char × List (List Char)) → List (List Char × List (List Char))
  | [] => [(k, [v])]
  | (k', vs) :: rest =>
    if k' = k then (k', vs ++ [v]) :: rest else (k', vs) :: qsInsert k v rest

/-- `urllib.parse.parse_qs`: fields split on `&`, grouped into an
insertion-ordered dictionary of value lists. -/
def parse_qs (qs : List Char) : List (List Char × List (List Char)) :=
  ((splitAll '&' qs).filterMap parsePair).foldl (fun d p => qsInsert p.1 p.2 d) []

/-- `dict.__setitem__` on the insertion-ordered dictionary: replace in
place, or append a fresh key. -/
def dictSet (k : List Char) (vs : List (List Char)) :
    List (List Char × List (List Char)) → List (List Char × List (List Char))
  | [] => [(k, vs)]
  | (k', vs') :: rest =>
    if k' = k then (k', vs) :: rest else (k', vs') :: dictSet k vs rest

/-- `quote_plus` over a character list. -/
def quotePlusL (l : List Char) : List Char := (l.map quotePlusChar).flatten

/-- `urllib.parse.urlencode(query, doseq=True)`: one `k=v` field per
value, keys and values `quote_plus`-encoded, joined with `&`. -/
def urlencodeDoseq (d : List (List Char × List (List Char))) : List Char :=
  joinSep '&'
    ((d.map (fun p => p.2.map (fun v => quotePlusL p.1 ++ '=' :: quotePlusL v))).flatten)

/-! ## Channel dispatchers (`Notifier.send_all`, `_send_dingtalk`, `_send_feishu`) -/

/-- One configured webhook bot. -/
structure BotConfig where
  webhook : String
  secret : Option String
  name : Option String
deriving DecidableEq

/-- The slice of the configuration the pipeline reads. -/
structure Config where
  dingtalk_enable : Bool
  dingtalk_bots : List BotConfig
  feishu_enable : Bool
  feishu_bots : List BotConfig
  poll_interval : Nat
  max_events : Nat
deriving DecidableEq

/-- What one `requests.post` produced: a response with a status code and
body, or a raised exception. -/
inductive HttpResult : Type
  | resp (status : Nat) (body : String)
  | exn (msg : String)
deriving DecidableEq

/-- How one channel send ended, after the dispatcher's own handling:
delivered, non-200 logged as error, or exception caught and logged. -/
inductive Outcome : Type
  | success
  | httpFailure (status : Nat) (body : String)
  | exnCaught (msg : String)
deriving DecidableEq

/-- The DingTalk wire payload. -/
structure DingtalkPayload where
  msgtype : String
  title : String
  text : String
deriving DecidableEq

/-- The payload `_send_dingtalk` builds: markdown, fixed title, message
with paragraph breaks doubled. -/
def dingtalk_payload (message : String) : DingtalkPayload :=
  ⟨"markdown", "GitHub动态通知", message.replace "\n" "\n\n"⟩

/-- The URL `_send_dingtalk` posts to: with a secret, `&timestamp=` and
`&sign=` are appended textually to the webhook. -/
def dingtalk_url (bot : BotConfig) (nowMillis : Nat) : String :=
  match bot.secret with
  | none => bot.webhook
  | some secret =>
    let timestamp := toString nowMillis
    bot.webhook ++ "&timestamp=" ++ timestamp ++ "&sign="
      ++ generate_dingtalk_sign secret timestamp

/-- The `try` body of `_send_dingtalk`: posts and inspects the status;
a raised exception escapes as `.error`. -/
def send_dingtalk_try (post : String → HttpResult) (message : String)
    (bot : BotConfig) (nowMillis : Nat) : Except String Outcome :=
  let url := dingtalk_url bot nowMillis
  let _payload := dingtalk_payload message
  match post url with
  | .exn m => .error m
  | .resp code body => .ok (if code ≠ 200 then .httpFailure code body else .success)

/-- `Notifier._send_dingtalk`: the `try`/`except` wrapper — every raised
exception is caught and logged, never propagated. -/
def send_dingtalk (post : String → HttpResult) (message : String)
    (bot : BotConfig) (nowMillis : Nat) : Outcome :=
  match send_dingtalk_try post message bot nowMillis with
  | .ok o => o
  | .error m => .exnCaught m

/-- A scan for `pat` occurring inside `s`. -/
def isInfixB (pat : List Char) : List Char → Bool
  | [] => decide (pat = [])
  | c :: rest => decide (pat <+: c :: rest) || isInfixB pat rest

/-- Skip (lazily) to the first `](`; `.` in the pattern does not cross a
newline. -/
def skipToBracketParen : List Char → Option (List Char)
  | ']' :: '(' :: rest => some rest
  | '\n' :: _ => none
  | _ :: rest => skipToBracketParen rest
  | [] => none

/-- Skip (lazily) to the first `)`, not crossing a newline. -/
def skipToParen : List Char → Option (List Char)
  | ')' :: rest => some rest
  | '\n' :: _ => none
  | _ :: rest => skipToParen rest
  | [] => none

/-- `re.sub(r'!\[.*?\]\(.*?\)', '', message)`: delete every image-embed
occurrence, scanning left to right (fuel-driven; one character of input
is consumed per step). -/
def stripImagesAux : Nat → List Char → List Char
  | 0, l => l
  | _ + 1, [] => []
  | fuel + 1, '!' :: '[' :: rest =>
    (match skipToBracketParen rest with
     | some r1 =>
       match skipToParen r1 with
       | some r2 => stripImagesAux fuel r2
       | none => '!' :: stripImagesAux fuel ('[' :: rest)
     | none => '!' :: stripImagesAux fuel ('[' :: rest))
  | fuel + 1, c :: rest => c :: stripImagesAux fuel rest

/-- `Notifier._format_for_feishu`: strip image-embed syntax when present,
drop the channel-specific title line, double the paragraph breaks. (The
`try` body is total, so the `except` arm is dead code.) -/
def format_for_feishu (message : String) : String :=
  let m1 : String :=
    if isInfixB ['!', '['] message.data ∧ isInfixB [']', '('] message.data
    then ⟨stripImagesAux message.data.length message.data⟩
    else message
  let m2 := m1.replace "### ✨ GitHub动态通知\n" ""
  m2.replace "\n" "\n\n"

/-- The Feishu wire payload (interactive card with one markdown body
element). -/
structure FeishuPayload where
  msg_type : String
  header_title : String
  content : String
deriving DecidableEq

/-- The payload `_send_feishu` builds. -/
def feishu_payload (message : String) : FeishuPayload :=
  ⟨"interactive", "✨ GitHub动态通知", format_for_feishu message⟩

/-- The URL `_send_feishu` posts to: with a secret, `timestamp` and
`sign` are merged into the parsed query string and the URL rebuilt. -/
def feishu_signed_url (webhook : String) (secret : String) (nowSec : Nat) : String :=
  let timestamp := toString nowSec
  let sign := generate_feishu_sign secret timestamp
  let parsed := urlparseLite webhook.data
  let query := parse_qs parsed.query
  let query2 := dictSet "sign".data [sign.data]
    (dictSet "timestamp".data [timestamp.data] query)
  ⟨urlunparseLite { parsed with query := urlencodeDoseq query2 }⟩

/-- The URL `_send_feishu` posts to, secret or not. -/
def feishu_url (bot : BotConfig) (nowSec : Nat) : String :=
  match bot.secret with
  | none => bot.webhook
  | some secret => feishu_signed_url bot.webhook secret nowSec

/-- The `try` body of `_send_feishu`. -/
def send_feishu_try (post : String → HttpResult) (message : String)
    (bot : BotConfig) (nowSec : Nat) : Except String Outcome :=
  let url := feishu_url bot nowSec
  let _payload := feishu_payload message
  match post url with
  | .exn m => .error m
  | .resp code body => .ok (if code ≠ 200 then .httpFailure code body else .success)

/-- `Notifier._send_feishu`: the `try`/`except` wrapper. -/
def send_feishu (post : String → HttpResult) (message : String)
    (bot : BotConfig) (nowSec : Nat) : Outcome :=
  match send_feishu_try post message bot nowSec with
  | .ok o => o
  | .error m => .exnCaught m

/-- The channel of one dispatch attempt. -/
inductive Channel : Type
  | dingtalk
  | feishu
deriving DecidableEq

/-- `Notifier.send_all`: every bot of every enabled channel receives its
own dispatch attempt, DingTalk bots first, in configuration order. -/
def send_all (post : String → HttpResult) (cfg : Config) (message : String)
    (nowMillis nowSec : Nat) : List (Channel × BotConfig × Outcome) :=
  (if cfg.dingtalk_enable then
    cfg.dingtalk_bots.map
      (fun bot => (Channel.dingtalk, bot, send_dingtalk post message bot nowMillis))
   else [])
  ++ (if cfg.feishu_enable then
    cfg.feishu_bots.map
      (fun bot => (Channel.feishu, bot, send_feishu post message bot nowSec))
   else [])

/-! ## The poll loop (`monitor`)

A bundle of the oracles one poll cycle consumes: the two enrichment
lookups, the webhook post results, and the wall clock (one reading per
cycle suffices for every property below). -/

structure World where
  net : String → Fetch RepoJson
  unet : String → Fetch (Option String)
  post : String → HttpResult
  now : String
  nowMillis : Nat
  nowSec : Nat

/-- The processing phase of one cycle over the fetched feed page: for
each event not yet seen, format → dispatch to all channels → mark seen.
Returns the store, the `new_events` count, and the dispatch trace (one
entry per dispatched event). -/
def process_events (w : World) (cfg : Config) (s : Store) :
    List Event → Store × Nat × List (String × List (Channel × BotConfig × Outcome))
  | [] => (s, 0, [])
  | e :: rest =>
    if Database.is_pushed s e.id then process_events w cfg s rest
    else
      let fm := format_message w.net w.unet s e
      let results := send_all w.post cfg fm.1 w.nowMillis w.nowSec
      let s2 := Database.mark_pushed fm.2 e.id w.now
      let r := process_events w cfg s2 rest
      (r.1, r.2.1 + 1, (e.id, results) :: r.2.2)

/-- What one iteration of the `while True` loop is faced with: a fetched
feed page, a `requests` network failure, any other exception raised in
the cycle, or the external interrupt. -/
inductive CycleInput : Type
  | events (page : List Event)
  | netError (msg : String)
  | otherError (msg : String)
  | interrupt
deriving DecidableEq

/-- How one loop iteration ends: go back to fetching after sleeping, or
leave the loop (only the interrupt does). -/
inductive StepResult : Type
  | next (sleep : Nat) (s : Store)
  | exit (reason : String)
deriving DecidableEq

/-- The fixed backoff sleep of the two error handlers (`time.sleep(60)`). -/
def backoff_sleep : Nat := 60

/-- One iteration of the `monitor` loop: process the page then sleep the
configured interval; on either error class log and sleep the fixed
backoff; on interrupt leave the loop. -/
def monitor_step (w : World) (cfg : Config) (input : CycleInput) (s : Store) :
    StepResult :=
  match input with
  | .events page =>
    let r := process_events w cfg s page
    .next cfg.poll_interval r.1
  | .netError _ => .next backoff_sleep s
  | .otherError _ => .next backoff_sleep s
  | .interrupt => .exit "KeyboardInterrupt"

/-! ## The poll loop under a faulty storage layer

`Database.is_pushed` has no exception handler: a sqlite error raised by
the `SELECT` propagates out of the store into the loop body. `fault`
injects such an error. -/

/-- `Database.is_pushed` when the storage layer may raise. -/
def is_pushedE (fault : Option String) (s : Store) (event_id : String) :
    Except String Bool :=
  match fault with
  | some m => .error m
  | none => .ok (Database.is_pushed s event_id)

/-- The processing phase when the seen-check may raise: the error aborts
the iteration, carrying the store as mutated so far. -/
def process_eventsE (fault : Option String) (w : World) (cfg : Config) (s : Store) :
    List Event → Except (String × Store) (Store × Nat)
  | [] => .ok (s, 0)
  | e :: rest =>
    match is_pushedE fault s e.id with
    | .error m => .error (m, s)
    | .ok true => process_eventsE fault w cfg s rest
    | .ok false =>
      let fm := format_message w.net w.unet s e
      let _results := send_all w.post cfg fm.1 w.nowMillis w.nowSec
      let s2 := Database.mark_pushed fm.2 e.id w.now
      match process_eventsE fault w cfg s2 rest with
      | .ok (s3, n) => .ok (s3, n + 1)
      | .error es => .error es

/-- One loop iteration when the seen-check may raise: the raised storage
error reaches the loop's generic `except Exception` handler, which logs
it and backs off like any other failure. -/
def monitor_stepE (fault : Option String) (w : World) (cfg : Config)
    (input : CycleInput) (s : Store) : StepResult :=
  match input with
  | .events page =>
    (match process_eventsE fault w cfg s page with
     | .ok (s', _) => .next cfg.poll_interval s'
     | .error (_, s') => .next backoff_sleep s')
  | .netError _ => .next backoff_sleep s
  | .otherError _ => .next backoff_sleep s
  | .interrupt => .exit "KeyboardInterrupt"

/-! ## Predicates and spec-side definitions used by the theorems -/

/-- `pat` occurs contiguously inside `s`. -/
def containsStr (pat s : String) : Prop := List.IsInfix pat.data s.data

instance (pat s : String) : Decidable (containsStr pat s) :=
  List.decidableInfix pat.data s.data

/-- Number of marker rows carrying a given event identifier. -/
def markerRows (s : Store) (event_id : String) : Nat :=
  (s.pushed_events.filter (fun p => p.1 = event_id)).length

/-- The A-type signature as the spec words it (spec-side definition, to
compare with `generate_dingtalk_sign` from the source): URL-percent-encode
the base64 of the HMAC-SHA256 of `"{timestampMillis}\n{secret}"` keyed by
the secret. -/
def dingtalk_sign_specified (secret timestampMillis : String) : String :=
  quotePlus (b64encode (hmacSha256 (utf8 secret)
    (utf8 (timestampMillis ++ "\n" ++ secret))))

/-- The characters `quote_plus` leaves untouched (and `unquote_plus`
maps to themselves): ASCII alphanumerics and `_.-~`. -/
def safeChar (c : Char) : Prop :=
  c.isAlphanum = true ∨ c = '_' ∨ c = '.' ∨ c = '-' ∨ c = '~'

instance (c : Char) : Decidable (safeChar c) := by
  unfold safeChar
  infer_instance

/-- A raw query string built from `key=value` pairs (spec-side helper
describing the webhook URLs quantified over in C6). -/
def renderQuery (ps : List (List Char × List Char)) : List Char :=
  joinSep '&' (ps.map (fun p => p.1 ++ '=' :: p.2))

/-- The B-type signature as the spec words it (spec-side definition, to
compare with `generate_feishu_sign` from the source): the base64 of the
HMAC-SHA256 of `"{timestampSeconds}\n{secret}"` keyed by the secret, with
no further URL-encoding. -/
def feishu_sign_specified (secret timestampSeconds : String) : String :=
  b64encode (hmacSha256 (utf8 secret) (utf8 (timestampSeconds ++ "\n" ++ secret)))

/-! ## Helper lemmas: association lists and store plumbing -/

theorem alistFind_upsert_self {α : Type} (k : String) (v : α) (l : List (String × α)) :
    alistFind k (alistUpsert k v l) = some v := by
  induction l with
  | nil => simp [alistUpsert, alistFind]
  | cons p rest ih =>
    obtain ⟨k', v'⟩ := p
    by_cases h : k' = k
    · simp [alistUpsert, alistFind, h]
    · simp [alistUpsert, alistFind, h, ih]

theorem alistFind_append_of_some {α : Type} {k : String} {v : α}
    {l1 : List (String × α)} (l2 : List (String × α))
    (h : alistFind k l1 = some v) : alistFind k (l1 ++ l2) = some v := by
  induction l1 with
  | nil => simp [alistFind] at h
  | cons p rest ih =>
    obtain ⟨k', v'⟩ := p
    by_cases hk : k' = k
    · simpa [alistFind, hk] using h
    · simp only [alistFind, hk, if_false, List.cons_append] at h ⊢
      exact ih h

theorem alistFind_self_append {α : Type} (k : String) (v : α)
    (l : List (String × α)) :
    (alistFind k (l ++ [(k, v)])).isSome = true := by
  induction l with
  | nil => simp [alistFind]
  | cons p rest ih =>
    obtain ⟨k', v'⟩ := p
    by_cases hk : k' = k <;> simp [alistFind, hk, ih]

/-- Caching an avatar leaves the repo cache and the seen markers alone. -/
theorem get_user_avatar_store (unet : String → Fetch (Option String))
    (s : Store) (login : String) :
    ((get_user_avatar unet s login).2.1).pushed_events = s.pushed_events ∧
    ((get_user_avatar unet s login).2.1).repo_cache = s.repo_cache := by
  unfold get_user_avatar
  rcases h : Database.get_user_avatar s login with _ | cached
  · simp only [h]
    rcases hn : unet login with body | code | msg <;>
      simp [Database.cache_user_avatar]
  · simp [h]

/-- Enriching repo details leaves the seen markers alone. -/
theorem get_repo_details_pushed (net : String → Fetch RepoJson)
    (s : Store) (name : String) :
    ((get_repo_details net s name).2.1).pushed_events = s.pushed_events := by
  unfold get_repo_details
  rcases h : Database.get_repo_info s name with _ | cached
  · simp only [h]
    rcases hn : net name with body | code | msg <;>
      simp [Database.cache_repo_info]
  · simp [h]



/-! ## Claim C2 -/

/-- Claim C2 as stated is false: when the first remote lookup fails
(here: a raised timeout), nothing is cached, so the second call for the
same repository name issues another network request rather than none. -/
theorem repo_details_second_call_counterexample :
    ¬ ((get_repo_details (fun _ => Fetch.exn "timeout")
        ((get_repo_details (fun _ => Fetch.exn "timeout") Store.empty "alice/repo").2.1)
        "alice/repo").2.2 = 0) := by decide

/-- Claim C2 (amended): for every repository name that is already cached
or whose first remote lookup returns HTTP 200, a second enrichment call
issues no network request and returns the same description, language and
star-count values as the first call. -/
theorem repo_details_second_call (net : String → Fetch RepoJson) (s : Store)
    (name : String)
    (h : (Database.get_repo_info s name).isSome ∨ ∃ data, net name = Fetch.ok data) :
    (get_repo_details net (get_repo_details net s name).2.1 name).2.2 = 0 ∧
    (get_repo_details net (get_repo_details net s name).2.1 name).1 =
      (get_repo_details net s name).1 := by
  rcases hc : Database.get_repo_info s name with _ | row
  · rcases h with hs | ⟨data, hd⟩
    · rw [hc] at hs; simp at hs
    · have h1 : get_repo_details net s name =
          (⟨data.description, data.language, data.stargazers_count.getD 0⟩,
            Database.cache_repo_info s name data, 1) := by
        unfold get_repo_details
        rw [hc, hd]
      have h2 : Database.get_repo_info (Database.cache_repo_info s name data) name =
          some ⟨data.description, data.language, data.stargazers_count.getD 0⟩ := by
        simp [Database.get_repo_info, Database.cache_repo_info, alistFind_upsert_self]
      rw [h1]
      unfold get_repo_details
      simp only [h2]
      exact ⟨trivial, trivial⟩
  · have h1 : get_repo_details net s name =
        (⟨row.description, row.language, row.stars⟩, s, 0) := by
      unfold get_repo_details
      rw [hc]
    rw [h1]
    unfold get_repo_details
    simp only [hc]
    exact ⟨trivial, trivial⟩

/-- Witness for C2: a concrete 200 response, cached by the first call and
served from the cache by the second. -/
theorem repo_details_second_call_witness :
    ((Database.get_repo_info Store.empty "alice/repo").isSome ∨
      ∃ data, (fun _ : String => Fetch.ok (⟨some "d", some "Py", some 7⟩ : RepoJson))
        "alice/repo" = Fetch.ok data) ∧
    (get_repo_details (fun _ => Fetch.ok ⟨some "d", some "Py", some 7⟩)
      ((get_repo_details (fun _ => Fetch.ok ⟨some "d", some "Py", some 7⟩)
        Store.empty "alice/repo").2.1) "alice/repo").2.2 = 0 :=
  ⟨Or.inr ⟨⟨some "d", some "Py", some 7⟩, rfl⟩,
   (repo_details_second_call (fun _ => Fetch.ok ⟨some "d", some "Py", some 7⟩)
      Store.empty "alice/repo" (Or.inr ⟨⟨some "d", some "Py", some 7⟩, rfl⟩)).1⟩

/-! ## Claim C10 -/

/-- Claim C10: a failed enrichment lookup (raised exception or non-200
status) leaves the persistent store unchanged — the sentinel tuple and
the placeholder avatar are never cached — so a later call for the same
key attempts the network fetch again; only a 200 response populates a
cache entry. -/
theorem enrichment_failure_leaves_store (net : String → Fetch RepoJson)
    (unet : String → Fetch (Option String)) (s : Store) (name login : String)
    (hrc : Database.get_repo_info s name = none)
    (hrf : ∀ data, net name ≠ Fetch.ok data)
    (huc : Database.get_user_avatar s login = none)
    (huf : ∀ body, unet login ≠ Fetch.ok body) :
    (get_repo_details net s name).2.1 = s ∧
    (get_repo_details net s name).1 = repoSentinel ∧
    (get_user_avatar unet s login).2.1 = s ∧
    (get_user_avatar unet s login).1 = avatarPlaceholder ∧
    (get_repo_details net (get_repo_details net s name).2.1 name).2.2 = 1 ∧
    (get_user_avatar unet (get_user_avatar unet s login).2.1 login).2.2 = 1 ∧
    (∀ net' : String → Fetch RepoJson, ∀ data, net' name = Fetch.ok data →
      (Database.get_repo_info ((get_repo_details net' s name).2.1) name).isSome = true) := by
  have hr : get_repo_details net s name = (repoSentinel, s, 1) := by
    unfold get_repo_details
    rw [hrc]
    rcases hn : net name with body | code | msg
    · exact absurd hn (hrf body)
    · rfl
    · rfl
  have hu : get_user_avatar unet s login = (avatarPlaceholder, s, 1) := by
    unfold get_user_avatar
    rw [huc]
    rcases hn : unet login with body | code | msg
    · exact absurd hn (huf body)
    · rfl
    · rfl
  refine ⟨by rw [hr], by rw [hr], by rw [hu], by rw [hu], ?_, ?_, ?_⟩
  · rw [hr]
    unfold get_repo_details
    rw [hrc]
    rcases hn : net name with body | code | msg
    · exact absurd hn (hrf body)
    · rfl
    · rfl
  · rw [hu]
    unfold get_user_avatar
    rw [huc]
    rcases hn : unet login with body | code | msg
    · exact absurd hn (huf body)
    · rfl
    · rfl
  · intro net' data hok
    unfold get_repo_details
    rw [hrc, hok]
    simp only [Database.get_repo_info, Database.cache_repo_info]
    rw [alistFind_upsert_self]
    rfl

/-- Witness for C10: both lookups time out on an empty store. -/
theorem enrichment_failure_leaves_store_witness :
    (Database.get_repo_info Store.empty "a/b" = none) ∧
    (get_repo_details (fun _ => Fetch.exn "t") Store.empty "a/b").2.1 = Store.empty ∧
    (get_user_avatar (fun _ => Fetch.status 404) Store.empty "alice").1 = avatarPlaceholder :=
  ⟨rfl,
   (enrichment_failure_leaves_store (fun _ => Fetch.exn "t") (fun _ => Fetch.status 404)
      Store.empty "a/b" "alice" rfl (fun _ h => by cases h) rfl (fun _ h => by cases h)).1,
   (enrichment_failure_leaves_store (fun _ => Fetch.exn "t") (fun _ => Fetch.status 404)
      Store.empty "a/b" "alice" rfl (fun _ h => by cases h) rfl
      (fun _ h => by cases h)).2.2.2.1⟩

theorem containsStr_intro (pat a b s : String) (h : s = a ++ pat ++ b) :
    containsStr pat s :=
  ⟨a.data, b.data, by rw [h]; simp [String.data_append]⟩



theorem intercalate_three (l1 l2 l3 : String) :
    String.intercalate "\n" [l1, l2, l3] = l1 ++ "\n" ++ l2 ++ "\n" ++ l3 := rfl

theorem intercalate_eight (l1 l2 l3 l4 l5 l6 l7 l8 : String) :
    String.intercalate "\n" [l1, l2, l3, l4, l5, l6, l7, l8] =
      l1 ++ "\n" ++ l2 ++ "\n" ++ l3 ++ "\n" ++ l4 ++ "\n" ++ l5 ++ "\n" ++
      l6 ++ "\n" ++ l7 ++ "\n" ++ l8 := rfl

/-- The fallback document always announces the formatting error and
quotes the error text. -/
theorem fallback_message_contains (err : String) :
    containsStr "消息格式化出错" (fallback_message err) ∧
    containsStr err (fallback_message err) := by
  constructor
  · apply containsStr_intro _ ("### GitHub动态通知" ++ "\n" ++ "**警告**: ")
      ("\n" ++ ("```" ++ "\n" ++ err ++ "\n" ++ "```"))
    unfold fallback_message
    rw [intercalate_three,
      show ("**警告**: 消息格式化出错" : String) = "**警告**: " ++ "消息格式化出错" from rfl]
    apply String.ext
    simp [String.data_append]
  · apply containsStr_intro _
      ("### GitHub动态通知" ++ "\n" ++ "**警告**: 消息格式化出错" ++ "\n" ++ ("```" ++ "\n"))
      ("\n" ++ "```")
    unfold fallback_message
    rw [intercalate_three]
    apply String.ext
    simp [String.data_append]

/-- `send_all` produces exactly one dispatch attempt per bot of each
enabled channel, whatever the message and the delivery outcomes. -/
theorem send_all_length (post : String → HttpResult) (cfg : Config)
    (message : String) (nowMillis nowSec : Nat) :
    (send_all post cfg message nowMillis nowSec).length =
      (if cfg.dingtalk_enable then cfg.dingtalk_bots.length else 0) +
      (if cfg.feishu_enable then cfg.feishu_bots.length else 0) := by
  cases hd : cfg.dingtalk_enable <;> cases hf : cfg.feishu_enable <;>
    simp [send_all, hd, hf]

/-! ## Claim C4 -/

/-- Claim C4: the message formatter never raises — for every event it
returns either the assembled document or the fallback document, nothing
else; given an event missing its `created_at` field it returns the
fallback, which announces the formatting failure, quotes the error text,
and is itself accepted by dispatch (one attempt per configured bot). -/
theorem format_message_never_raises (net : String → Fetch RepoJson)
    (unet : String → Fetch (Option String)) (s : Store) (e : Event)
    (h : e.created_at = none) :
    (∀ e' : Event, ∀ s0 : Store,
      (∃ m s2, assemble_message net unet s0 e' = .ok (m, s2) ∧
        format_message net unet s0 e' = (m, s2)) ∨
      (∃ err s2, assemble_message net unet s0 e' = .error (err, s2) ∧
        format_message net unet s0 e' = (fallback_message err, s2))) ∧
    (∃ err s2, format_message net unet s e = (fallback_message err, s2) ∧
      containsStr "消息格式化出错" (fallback_message err) ∧
      containsStr err (fallback_message err) ∧
      ∀ post cfg nowMillis nowSec,
        (send_all post cfg (fallback_message err) nowMillis nowSec).length =
          (if cfg.dingtalk_enable then cfg.dingtalk_bots.length else 0) +
          (if cfg.feishu_enable then cfg.feishu_bots.length else 0)) := by
  constructor
  · intro e' s0
    rcases ha : assemble_message net unet s0 e' with ⟨err, s2⟩ | ⟨m, s2⟩
    · exact Or.inr ⟨err, s2, rfl, by unfold format_message; rw [ha]⟩
    · exact Or.inl ⟨m, s2, rfl, by unfold format_message; rw [ha]⟩
  · have hfail : ∃ err s2, assemble_message net unet s e = .error (err, s2) := by
      unfold assemble_message
      rcases e.type with _ | ty
      · exact ⟨"'type'", s, rfl⟩
      · rcases e.actor_login with _ | al
        · exact ⟨"'login'", s, rfl⟩
        · rcases e.repo_name with _ | rn
          · exact ⟨"'name'", (get_user_avatar unet s al).2.1, rfl⟩
          · rw [h]
            exact ⟨"strptime() argument 1 must be str, not None",
              (get_user_avatar unet s al).2.1, rfl⟩
    obtain ⟨err, s2, ha⟩ := hfail
    exact ⟨err, s2, by unfold format_message; rw [ha],
      (fallback_message_contains err).1, (fallback_message_contains err).2,
      fun post cfg nm ns => send_all_length post cfg _ nm ns⟩

/-- Witness for C4: a concrete event with no `created_at`. -/
theorem format_message_never_raises_witness :
    ((⟨"e1", some "WatchEvent", some "alice", some "alice/repo", none, none⟩ :
        Event).created_at = none) ∧
    ∃ err s2, format_message (fun _ => Fetch.exn "down") (fun _ => Fetch.exn "down")
        Store.empty ⟨"e1", some "WatchEvent", some "alice", some "alice/repo", none, none⟩ =
        (fallback_message err, s2) :=
  ⟨rfl,
   by
    obtain ⟨err, s2, he, -⟩ :=
      (format_message_never_raises (fun _ => Fetch.exn "down")
        (fun _ => Fetch.exn "down") Store.empty
        ⟨"e1", some "WatchEvent", some "alice", some "alice/repo", none, none⟩ rfl).2
    exact ⟨err, s2, he⟩⟩

/-! ## Claim C3 -/

/-- Claim C3: when the repository is not cached and the remote metadata
lookup fails in any way (non-200 status or raised exception — timeouts,
connection errors and malformed bodies all raise), the enrichment
returns the fixed sentinel instead of propagating the failure, the
assembled message carries the sentinel description, and the pipeline
still formats, dispatches and marks the event. -/
theorem repo_details_failure_sentinel (w : World) (cfg : Config) (s : Store)
    (name : String) (e : Event) (ty al ca : String) (t : DateTime)
    (hrc : Database.get_repo_info s name = none)
    (hrf : ∀ data, w.net name ≠ Fetch.ok data)
    (hty : e.type = some ty) (hal : e.actor_login = some al)
    (hrn : e.repo_name = some name) (hca : e.created_at = some ca)
    (ht : strptime_github ca = some t)
    (hrel : ty ≠ "ReleaseEvent")
    (hseen : Database.is_pushed s e.id = false) :
    (get_repo_details w.net s name).1 = repoSentinel ∧
    (∃ msg s2, assemble_message w.net w.unet s e = .ok (msg, s2) ∧
      containsStr "暂无描述" msg) ∧
    (process_events w cfg s [e]).2.1 = 1 ∧
    (process_events w cfg s [e]).2.2 =
      [(e.id, send_all w.post cfg (format_message w.net w.unet s e).1
        w.nowMillis w.nowSec)] := by
  have hsent : ∀ s' : Store, Database.get_repo_info s' name = none →
      get_repo_details w.net s' name = (repoSentinel, s', 1) := by
    intro s' hc
    unfold get_repo_details
    rw [hc]
    rcases hn : w.net name with body | code | msg
    · exact absurd hn (hrf body)
    · rfl
    · rfl
  have hrc1 : Database.get_repo_info ((get_user_avatar w.unet s al).2.1) name = none := by
    have := (get_user_avatar_store w.unet s al).2
    unfold Database.get_repo_info at hrc ⊢
    rw [this, hrc]
  have hasm : assemble_message w.net w.unet s e =
      .ok (String.intercalate "\n"
        ["### ✨ GitHub动态通知",
         "![用户头像](" ++ ((get_user_avatar w.unet s al).1 ++ "?size=20") ++ ") **[" ++
           al ++ "](https://github.com/" ++ al ++ ")**",
         "**⌚ 时间**: " ++ strftime_display t,
         "**🔧 操作**: " ++ (actions_map ty).getD ty,
         "**📦 仓库**: [" ++ name ++ "](" ++ ("https://github.com/" ++ name) ++ ")",
         "**📝 描述**: " ++ "暂无描述" ++ "",
         "**🌐 语言**: " ++ "" ++ " | **⭐ Stars**: " ++ toString (0 : Nat),
         "---"], (get_user_avatar w.unet s al).2.1) := by
    unfold assemble_message
    simp only [hty, hal, hrn, hca, ht, bind, Except.bind]
    rw [hsent _ hrc1]
    simp only [if_neg hrel, repoSentinel, pyStr, Option.getD]
  refine ⟨by rw [hsent s hrc], ⟨_, _, hasm, ?_⟩, ?_, ?_⟩
  · apply containsStr_intro _
      ("### ✨ GitHub动态通知" ++ "\n" ++
        ("![用户头像](" ++ ((get_user_avatar w.unet s al).1 ++ "?size=20") ++ ") **[" ++
          al ++ "](https://github.com/" ++ al ++ ")**") ++ "\n" ++
        ("**⌚ 时间**: " ++ strftime_display t) ++ "\n" ++
        ("**🔧 操作**: " ++ (actions_map ty).getD ty) ++ "\n" ++
        ("**📦 仓库**: [" ++ name ++ "](" ++ ("https://github.com/" ++ name) ++ ")") ++
        "\n" ++ "**📝 描述**: ")
      ("" ++ "\n" ++
        ("**🌐 语言**: " ++ "" ++ " | **⭐ Stars**: " ++ toString (0 : Nat)) ++ "\n" ++ "---")
    rw [intercalate_eight]
    apply String.ext
    simp [String.data_append]
  · unfold process_events
    rw [hseen]
    simp [process_events]
  · unfold process_events
    rw [hseen]
    simp [process_events]

/-- Witness for C3: uncached repository, remote lookup raising a timeout,
well-formed Watch event on an empty store. -/
theorem repo_details_failure_sentinel_witness :
    (Database.get_repo_info Store.empty "alice/repo" = none) ∧
    (get_repo_details (fun _ => Fetch.exn "timeout") Store.empty "alice/repo").1 =
      repoSentinel :=
  ⟨rfl,
   (repo_details_failure_sentinel
      ⟨fun _ => Fetch.exn "timeout", fun _ => Fetch.exn "timeout",
        fun _ => HttpResult.resp 200 "ok", "2026-01-01T00:00:00", 0, 0⟩
      ⟨true, [⟨"https://example.com/hook?a=1", none, some "bot"⟩], false, [], 300, 20⟩
      Store.empty "alice/repo"
      ⟨"e1", some "WatchEvent", some "alice", some "alice/repo",
        some "2026-01-02T03:04:05Z", none⟩
      "WatchEvent" "alice" "2026-01-02T03:04:05Z" ⟨2026, 1, 2, 3, 4, 5⟩
      rfl (fun _ h => by cases h) rfl rfl rfl rfl (by decide)
      (by decide) rfl).1⟩

/-! ## Marker-row counting and pushed-set monotonicity -/



theorem alistFind_none_of_filter_nil {α : Type} (k : String) :
    ∀ l : List (String × α), (l.filter (fun p => p.1 = k)).length = 0 →
      alistFind k l = none := by
  intro l
  induction l with
  | nil => intro _; rfl
  | cons p rest ih =>
    intro h
    obtain ⟨k', v⟩ := p
    by_cases hk : k' = k
    · simp [List.filter_cons, hk] at h
    · simp only [List.filter_cons, decide_eq_true_eq, hk, if_false] at h
      simp only [alistFind, hk, if_false]
      exact ih h

theorem is_pushed_false_of_markerRows_zero {s : Store} {id : String}
    (h : markerRows s id = 0) : Database.is_pushed s id = false := by
  unfold markerRows at h
  unfold Database.is_pushed
  rw [alistFind_none_of_filter_nil id s.pushed_events h]
  rfl

theorem markerRows_mark_unseen (s : Store) (id now : String)
    (h : Database.is_pushed s id = false) :
    markerRows (Database.mark_pushed s id now) id = markerRows s id + 1 := by
  unfold Database.mark_pushed Database.insert_pushed
  unfold Database.is_pushed at h
  simp only [h]
  simp [markerRows, List.filter_append]

theorem mark_pushed_seen (s : Store) (id now : String)
    (h : Database.is_pushed s id = true) :
    Database.mark_pushed s id now = s ∧
    Database.insert_pushed s id now = .error () := by
  unfold Database.mark_pushed Database.insert_pushed
  unfold Database.is_pushed at h
  simp [h]

theorem is_pushed_mark_self (s : Store) (id now : String) :
    Database.is_pushed (Database.mark_pushed s id now) id = true := by
  unfold Database.mark_pushed Database.insert_pushed
  by_cases hp : (alistFind id s.pushed_events).isSome
  · simp [hp, Database.is_pushed]
  · simp only [hp, Bool.false_eq_true, if_false, reduceCtorEq]
    simpa [Database.is_pushed] using alistFind_self_append id now s.pushed_events

theorem is_pushed_mark_mono (s : Store) (id id' now : String)
    (h : Database.is_pushed s id = true) :
    Database.is_pushed (Database.mark_pushed s id' now) id = true := by
  unfold Database.mark_pushed Database.insert_pushed
  by_cases hp : (alistFind id' s.pushed_events).isSome
  · simpa [hp, Database.is_pushed] using h
  · simp only [hp, Bool.false_eq_true, if_false, reduceCtorEq]
    unfold Database.is_pushed at h ⊢
    obtain ⟨v, hv⟩ := Option.isSome_iff_exists.mp h
    simp [alistFind_append_of_some _ hv]

/-- The formatter never touches the seen markers. -/
theorem format_message_pushed (net : String → Fetch RepoJson)
    (unet : String → Fetch (Option String)) (s : Store) (e : Event) :
    ((format_message net unet s e).2).pushed_events = s.pushed_events := by
  obtain ⟨eid, ety, eal, ern, eca, erel⟩ := e
  unfold format_message assemble_message
  rcases ety with _ | ty
  · rfl
  rcases eal with _ | al
  · rfl
  have h1 := (get_user_avatar_store unet s al).1
  rcases ern with _ | rn
  · exact h1
  rcases eca with _ | ca
  · exact h1
  dsimp only
  have h2 := get_repo_details_pushed net ((get_user_avatar unet s al).2.1) rn
  rcases hst : strptime_github ca with _ | t
  · simp only [hst]
    exact h1
  simp only [hst]
  by_cases hrel : ty = "ReleaseEvent"
  · rcases erel with _ | rel <;>
      simp [hrel, Bind.bind, Except.bind, h1, h2, h2.trans h1]
  · simp [hrel, Bind.bind, Except.bind, h1, h2, h2.trans h1]

theorem process_events_pushed_mono (w : World) (cfg : Config) (id : String) :
    ∀ (l : List Event) (s : Store), Database.is_pushed s id = true →
      Database.is_pushed (process_events w cfg s l).1 id = true := by
  intro l
  induction l with
  | nil => intro s h; exact h
  | cons e rest ih =>
    intro s h
    unfold process_events
    by_cases hp : Database.is_pushed s e.id
    · simp only [hp, if_true]
      exact ih s h
    · simp only [hp, Bool.false_eq_true, if_false]
      apply ih
      have hf := format_message_pushed w.net w.unet s e
      apply is_pushed_mark_mono
      unfold Database.is_pushed at h ⊢
      rw [hf]
      exact h

theorem process_events_all_pushed (w : World) (cfg : Config) :
    ∀ (l : List Event) (s : Store), ∀ e ∈ l,
      Database.is_pushed (process_events w cfg s l).1 e.id = true := by
  intro l
  induction l with
  | nil => intro s e he; cases he
  | cons e0 rest ih =>
    intro s e he
    unfold process_events
    by_cases hp : Database.is_pushed s e0.id
    · simp only [hp, if_true]
      rcases List.mem_cons.mp he with he | he
      · exact process_events_pushed_mono w cfg e.id rest s (by rw [he]; exact hp)
      · exact ih s e he
    · simp only [hp, Bool.false_eq_true, if_false]
      rcases List.mem_cons.mp he with he | he
      · apply process_events_pushed_mono
        rw [he]
        exact is_pushed_mark_self _ _ _
      · exact ih _ e he

theorem process_events_skip (w : World) (cfg : Config) :
    ∀ (l : List Event) (s : Store),
      (∀ e ∈ l, Database.is_pushed s e.id = true) →
      process_events w cfg s l = (s, 0, []) := by
  intro l
  induction l with
  | nil => intro s _; rfl
  | cons e rest ih =>
    intro s h
    unfold process_events
    simp only [h e (List.mem_cons_self e rest), if_true]
    exact ih s (fun e' he' => h e' (List.mem_cons_of_mem e he'))

/-! ## Claim C1 -/

/-- Claim C1: an event identifier is dispatched at most once — marking
twice leaves exactly one marker row, the duplicate insert is the
swallowed `IntegrityError` (a no-op, not an escaping error), and a
second processing pass over the same feed page dispatches nothing,
counts zero new events and leaves the store untouched. -/
theorem dedup_at_most_once (w : World) (cfg : Config) (s : Store)
    (id now now2 : String) (page : List Event)
    (h : markerRows s id = 0) :
    markerRows (Database.mark_pushed (Database.mark_pushed s id now) id now2) id = 1 ∧
    Database.insert_pushed (Database.mark_pushed s id now) id now2 = .error () ∧
    Database.mark_pushed (Database.mark_pushed s id now) id now2 =
      Database.mark_pushed s id now ∧
    process_events w cfg (process_events w cfg s page).1 page =
      ((process_events w cfg s page).1, 0, []) := by
  have h0 := is_pushed_false_of_markerRows_zero h
  have h1 := is_pushed_mark_self s id now
  obtain ⟨hm, hi⟩ := mark_pushed_seen (Database.mark_pushed s id now) id now2 h1
  refine ⟨?_, hi, hm, ?_⟩
  · rw [hm, markerRows_mark_unseen s id now h0, h]
  · exact process_events_skip w cfg page _
      (fun e he => process_events_all_pushed w cfg page s e he)

/-- Witness for C1: one fresh event processed twice on an empty store. -/
theorem dedup_at_most_once_witness :
    markerRows Store.empty "e1" = 0 ∧
    markerRows (Database.mark_pushed (Database.mark_pushed Store.empty "e1" "t1")
      "e1" "t2") "e1" = 1 :=
  ⟨rfl,
   (dedup_at_most_once
      ⟨fun _ => Fetch.exn "down", fun _ => Fetch.exn "down",
        fun _ => HttpResult.resp 200 "ok", "t1", 0, 0⟩
      ⟨true, [⟨"https://example.com/hook?a=1", none, none⟩], false, [], 300, 20⟩
      Store.empty "e1" "t1" "t2"
      [⟨"e1", some "WatchEvent", some "alice", some "alice/repo",
        some "2026-01-02T03:04:05Z", none⟩]
      rfl).1⟩

/-! ## Claim C7 -/

/-- Claim C7: channel dispatch never raises — each dispatcher catches its
own exceptions and reports a caught outcome, which channel/bot receives a
dispatch attempt is entirely independent of the delivery outcomes (so one
channel failing never starves another), and the event is still marked
seen exactly once afterwards. -/
theorem channel_isolation (post post2 : String → HttpResult) (cfg : Config)
    (message : String) (nowMillis nowSec : Nat) (w : World) (s : Store)
    (e : Event) (h : markerRows s e.id = 0) :
    ((send_all post cfg message nowMillis nowSec).map (fun r => (r.1, r.2.1)) =
      (send_all post2 cfg message nowMillis nowSec).map (fun r => (r.1, r.2.1))) ∧
    (∀ bot t,
      (∃ o, send_dingtalk_try post message bot t = .ok o ∧
        send_dingtalk post message bot t = o) ∨
      (∃ er, send_dingtalk_try post message bot t = .error er ∧
        send_dingtalk post message bot t = .exnCaught er)) ∧
    (∀ bot t,
      (∃ o, send_feishu_try post message bot t = .ok o ∧
        send_feishu post message bot t = o) ∨
      (∃ er, send_feishu_try post message bot t = .error er ∧
        send_feishu post message bot t = .exnCaught er)) ∧
    markerRows (process_events w cfg s [e]).1 e.id = 1 := by
  refine ⟨?_, ?_, ?_, ?_⟩
  · cases hd : cfg.dingtalk_enable <;> cases hf : cfg.feishu_enable <;>
      simp [send_all, hd, hf, Function.comp_def]
  · intro bot t
    rcases hr : send_dingtalk_try post message bot t with er | o
    · exact Or.inr ⟨er, rfl, by unfold send_dingtalk; rw [hr]⟩
    · exact Or.inl ⟨o, rfl, by unfold send_dingtalk; rw [hr]⟩
  · intro bot t
    rcases hr : send_feishu_try post message bot t with er | o
    · exact Or.inr ⟨er, rfl, by unfold send_feishu; rw [hr]⟩
    · exact Or.inl ⟨o, rfl, by unfold send_feishu; rw [hr]⟩
  · have h0 := is_pushed_false_of_markerRows_zero h
    unfold process_events
    simp only [h0, Bool.false_eq_true, if_false]
    unfold process_events
    have hf := format_message_pushed w.net w.unet s e
    have hmk : markerRows (Database.mark_pushed (format_message w.net w.unet s e).2
        e.id w.now) e.id = 1 := by
      rw [markerRows_mark_unseen]
      · unfold markerRows at h ⊢
        rw [hf, h]
      · unfold Database.is_pushed at h0 ⊢
        rw [hf]
        exact h0
    exact hmk

/-- Witness for C7: one bot per channel, the DingTalk webhook erroring,
on an empty store. -/
theorem channel_isolation_witness :
    markerRows Store.empty "e1" = 0 ∧
    ((send_all (fun _ => HttpResult.resp 500 "oops")
        ⟨true, [⟨"https://a.example/hook?k=1", none, some "A"⟩], true,
          [⟨"https://b.example/hook?k=2", none, some "B"⟩], 300, 20⟩
        "msg" 5 5).map (fun r => (r.1, r.2.1)) =
      (send_all (fun _ => HttpResult.resp 200 "ok")
        ⟨true, [⟨"https://a.example/hook?k=1", none, some "A"⟩], true,
          [⟨"https://b.example/hook?k=2", none, some "B"⟩], 300, 20⟩
        "msg" 5 5).map (fun r => (r.1, r.2.1))) :=
  ⟨rfl,
   (channel_isolation (fun _ => HttpResult.resp 500 "oops")
      (fun _ => HttpResult.resp 200 "ok")
      ⟨true, [⟨"https://a.example/hook?k=1", none, some "A"⟩], true,
        [⟨"https://b.example/hook?k=2", none, some "B"⟩], 300, 20⟩
      "msg" 5 5
      ⟨fun _ => Fetch.exn "down", fun _ => Fetch.exn "down",
        fun _ => HttpResult.resp 500 "oops", "t", 5, 5⟩
      Store.empty
      ⟨"e1", some "WatchEvent", some "alice", some "alice/repo",
        some "2026-01-02T03:04:05Z", none⟩
      rfl).1⟩

/-! ## Claim C8 -/

/-- Claim C8 as stated is false on one point: the backoff sleep is the
fixed 60 of `time.sleep(60)`, which is not longer than the configured
poll interval when that interval is 120. -/
theorem poll_backoff_counterexample :
    monitor_step
      ⟨fun _ => Fetch.exn "x", fun _ => Fetch.exn "x",
        fun _ => HttpResult.resp 200 "", "t", 0, 0⟩
      ⟨false, [], false, [], 120, 20⟩ (CycleInput.netError "timeout") Store.empty =
      StepResult.next backoff_sleep Store.empty ∧
    ¬ backoff_sleep > (⟨false, [], false, [], 120, 20⟩ : Config).poll_interval :=
  ⟨rfl, by decide⟩

/-- Claim C8 (amended): on a network-layer failure during fetch, and on
any other unexpected failure during a cycle, the loop logs, sleeps the
fixed 60-second backoff (longer than the poll interval only when that
interval is under 60) and returns to fetching; no input other than the
explicit interrupt makes the loop exit. -/
theorem poll_backoff_continue (w : World) (cfg : Config) (s : Store)
    (input : CycleInput) (hi : input ≠ CycleInput.interrupt) :
    (∀ m, monitor_step w cfg (CycleInput.netError m) s =
      StepResult.next backoff_sleep s) ∧
    (∀ m, monitor_step w cfg (CycleInput.otherError m) s =
      StepResult.next backoff_sleep s) ∧
    (∃ sl s2, monitor_step w cfg input s = StepResult.next sl s2) := by
  refine ⟨fun m => rfl, fun m => rfl, ?_⟩
  cases input with
  | events page => exact ⟨_, _, rfl⟩
  | netError m => exact ⟨_, _, rfl⟩
  | otherError m => exact ⟨_, _, rfl⟩
  | interrupt => exact absurd rfl hi

/-- Witness for C8: a network error with a 30-second interval configured. -/
theorem poll_backoff_continue_witness :
    (CycleInput.netError "timeout" ≠ CycleInput.interrupt) ∧
    monitor_step
      ⟨fun _ => Fetch.exn "x", fun _ => Fetch.exn "x",
        fun _ => HttpResult.resp 200 "", "t", 0, 0⟩
      ⟨false, [], false, [], 30, 20⟩ (CycleInput.netError "timeout") Store.empty =
      StepResult.next backoff_sleep Store.empty :=
  ⟨by decide,
   (poll_backoff_continue
      ⟨fun _ => Fetch.exn "x", fun _ => Fetch.exn "x",
        fun _ => HttpResult.resp 200 "", "t", 0, 0⟩
      ⟨false, [], false, [], 30, 20⟩ Store.empty
      (CycleInput.netError "timeout") (by decide)).1 "timeout"⟩

/-! ## Claim C9 -/

/-- Claim C9 as stated is false: a storage-layer error in the seen-check
does not stop the process — the loop's generic handler backs off for 60
seconds and keeps polling; the step never exits. -/
theorem storage_error_counterexample :
    monitor_stepE (some "disk I/O error")
      ⟨fun _ => Fetch.exn "x", fun _ => Fetch.exn "x",
        fun _ => HttpResult.resp 200 "", "t", 0, 0⟩
      ⟨false, [], false, [], 300, 20⟩
      (CycleInput.events [⟨"e1", none, none, none, none, none⟩]) Store.empty =
      StepResult.next backoff_sleep Store.empty ∧
    ∀ r, StepResult.next backoff_sleep Store.empty ≠ StepResult.exit r :=
  ⟨rfl, fun r h => by cases h⟩

/-- Claim C9 (amended): a storage-layer error in the seen-check does
surface out of the store layer — `is_pushed` has no handler, and the
raised error aborts the processing pass before any dispatch or marking —
but the poll loop's catch-all `except Exception` then treats it like any
transient failure: it logs, sleeps the fixed backoff and continues
polling; the process does not stop. -/
theorem storage_error_not_fatal (m : String) (w : World) (cfg : Config)
    (s : Store) (e : Event) (page : List Event) :
    is_pushedE (some m) s e.id = .error m ∧
    process_eventsE (some m) w cfg s (e :: page) = .error (m, s) ∧
    monitor_stepE (some m) w cfg (CycleInput.events (e :: page)) s =
      StepResult.next backoff_sleep s ∧
    (∀ r, monitor_stepE (some m) w cfg (CycleInput.events (e :: page)) s ≠
      StepResult.exit r) := by
  refine ⟨rfl, rfl, rfl, fun r h => by cases h⟩

/-- The fault-free processing pass agrees with the pure one: the faulty
model only generalises it. -/
theorem process_eventsE_none (w : World) (cfg : Config) :
    ∀ (l : List Event) (s : Store),
      process_eventsE none w cfg s l =
        .ok ((process_events w cfg s l).1, (process_events w cfg s l).2.1) := by
  intro l
  induction l with
  | nil => intro s; rfl
  | cons e rest ih =>
    intro s
    unfold process_eventsE process_events is_pushedE
    by_cases hp : Database.is_pushed s e.id
    · simp only [hp, if_true]
      exact ih s
    · simp only [hp, Bool.false_eq_true, if_false]
      rw [ih]

/-! ## Character classes and URL-splitting lemmas -/

theorem splitFirst_of_not_mem (sep : Char) :
    ∀ l : List Char, sep ∉ l → splitFirst sep l = (l, none) := by
  intro l
  induction l with
  | nil => intro _; rfl
  | cons c rest ih =>
    intro h
    have hc : ¬ c = sep := fun hcs => h (hcs ▸ List.mem_cons_self c rest)
    simp only [splitFirst, hc, if_false, ih (fun hm => h (List.mem_cons_of_mem c hm))]

theorem splitFirst_append (sep : Char) :
    ∀ l1 l2 : List Char, sep ∉ l1 →
      splitFirst sep (l1 ++ sep :: l2) = (l1, some l2) := by
  intro l1
  induction l1 with
  | nil => intro l2 _; simp [splitFirst]
  | cons c rest ih =>
    intro l2 h
    have hc : ¬ c = sep := fun hcs => h (hcs ▸ List.mem_cons_self c rest)
    simp [List.cons_append, splitFirst, hc,
      ih l2 (fun hm => h (List.mem_cons_of_mem c hm))]

theorem hexDigit_isAlphanum (n : Nat) : (hexDigit n).isAlphanum = true := by
  have hall : ∀ x ∈ ("0123456789ABCDEF").data, x.isAlphanum = true := by decide
  unfold hexDigit
  rcases hd : ("0123456789ABCDEF").data.drop n with _ | ⟨c, rest⟩
  · decide
  · have hc : c ∈ ("0123456789ABCDEF").data := by
      have : c ∈ ("0123456789ABCDEF").data.drop n := hd ▸ List.mem_cons_self c rest
      exact List.mem_of_mem_drop this
    simpa using hall c hc

/-- Every character a `quote_plus` encoding emits is a `+`, a `%`, an
ASCII alphanumeric, or one of `_.-~`. -/
theorem quotePlus_chars (s : String) :
    ∀ c ∈ (quotePlus s).data, c = '+' ∨ c = '%' ∨ c.isAlphanum = true ∨
      c = '_' ∨ c = '.' ∨ c = '-' ∨ c = '~' := by
  intro c hc
  have : c ∈ (s.data.map quotePlusChar).flatten := hc
  obtain ⟨l, hl, hcl⟩ := List.mem_flatten.mp this
  obtain ⟨d, _, hdl⟩ := List.mem_map.mp hl
  subst hdl
  unfold quotePlusChar at hcl
  by_cases h1 : d = ' '
  · rw [if_pos h1] at hcl
    simp only [List.mem_singleton] at hcl
    exact Or.inl hcl
  · rw [if_neg h1] at hcl
    by_cases h2 : (d.isAlphanum = true ∨ d = '_' ∨ d = '.' ∨ d = '-' ∨ d = '~')
    · rw [if_pos (by simpa using h2)] at hcl
      simp only [List.mem_singleton] at hcl
      subst hcl
      rcases h2 with h | h | h | h | h
      · exact Or.inr (Or.inr (Or.inl h))
      all_goals simp [h]
    · rw [if_neg (by simpa using h2)] at hcl
      obtain ⟨tri, htri, hctri⟩ := List.mem_flatten.mp hcl
      obtain ⟨b, _, hbt⟩ := List.mem_map.mp htri
      subst hbt
      simp only [List.mem_cons, List.mem_singleton, List.not_mem_nil,
        or_false] at hctri
      rcases hctri with h | h | h
      · exact Or.inr (Or.inl h)
      · exact Or.inr (Or.inr (Or.inl (h ▸ hexDigit_isAlphanum (b / 16))))
      · exact Or.inr (Or.inr (Or.inl (h ▸ hexDigit_isAlphanum (b % 16))))

theorem digitChar_isDigit : ∀ m, m < 10 → (Nat.digitChar m).isDigit = true := by
  decide

theorem toDigitsCore_digits :
    ∀ (f n : Nat) (ds : List Char), (∀ c ∈ ds, c.isDigit = true) →
      ∀ c ∈ Nat.toDigitsCore 10 f n ds, c.isDigit = true := by
  intro f
  induction f with
  | zero => intro n ds hds c hc; exact hds c hc
  | succ f ih =>
    intro n ds hds c hc
    unfold Nat.toDigitsCore at hc
    by_cases h : n / 10 = 0
    · simp only [h, if_true] at hc
      rcases List.mem_cons.mp hc with h1 | h1
      · exact h1 ▸ digitChar_isDigit _ (Nat.mod_lt _ (by decide))
      · exact hds c h1
    · simp only [h, if_false] at hc
      refine ih (n / 10) _ ?_ c hc
      intro c' hc'
      rcases List.mem_cons.mp hc' with h1 | h1
      · exact h1 ▸ digitChar_isDigit _ (Nat.mod_lt _ (by decide))
      · exact hds c' h1

/-- Every character of the decimal rendering of a natural number is an
ASCII digit. -/
theorem toString_nat_digits (n : Nat) :
    ∀ c ∈ (toString n).data, c.isDigit = true := by
  intro c hc
  have he : (toString n).data = Nat.toDigitsCore 10 (n + 1) n [] := rfl
  rw [he] at hc
  exact toDigitsCore_digits (n + 1) n [] (fun _ h => by cases h) c hc

theorem isDigit_isAlphanum {c : Char} (h : c.isDigit = true) :
    c.isAlphanum = true := by
  simp [Char.isAlphanum, h]

/-! ## Claim C5 -/

/-- Claim C5: the A-type (DingTalk) signature is exactly the
URL-percent-encoded base64 HMAC-SHA256 the spec describes, it is
deterministic (witnessed by the pinned golden value for
`(secret="abc", timestamp="1700000000000")`), and with a secret
configured the `timestamp` and `sign` are appended to the webhook URL,
landing in its query component. -/
theorem dingtalk_sign_correct (secret timestamp sec2 : String)
    (bot : BotConfig) (nowMillis : Nat) (b q : String)
    (hsec : bot.secret = some sec2)
    (hw : bot.webhook = b ++ "?" ++ q)
    (hb1 : '?' ∉ b.data) (hb2 : '#' ∉ b.data) (hq : '#' ∉ q.data) :
    generate_dingtalk_sign secret timestamp =
      dingtalk_sign_specified secret timestamp ∧
    generate_dingtalk_sign "abc" "1700000000000" =
      "op8PfVzJL3l7ytCWjPLUMemWOtOBySrLOe22d7A7me4%3D" ∧
    dingtalk_url bot nowMillis =
      bot.webhook ++ "&timestamp=" ++ toString nowMillis ++ "&sign=" ++
        generate_dingtalk_sign sec2 (toString nowMillis) ∧
    urlparseLite (dingtalk_url bot nowMillis).data =
      ⟨b.data, (q ++ "&timestamp=" ++ toString nowMillis ++ "&sign=" ++
        generate_dingtalk_sign sec2 (toString nowMillis)).data, []⟩ := by
  have hurl : dingtalk_url bot nowMillis =
      bot.webhook ++ "&timestamp=" ++ toString nowMillis ++ "&sign=" ++
        generate_dingtalk_sign sec2 (toString nowMillis) := by
    unfold dingtalk_url
    rw [hsec]
  refine ⟨rfl, by decide, hurl, ?_⟩
  rw [hurl, hw]
  have hsign : ∀ c ∈ (generate_dingtalk_sign sec2 (toString nowMillis)).data,
      c ≠ '#' := by
    intro c hc he
    subst he
    rcases quotePlus_chars (b64encode (hmacSha256 (utf8 sec2)
        (utf8 (toString nowMillis ++ "\n" ++ sec2)))) '#' hc with
      h | h | h | h | h | h | h <;> exact absurd h (by decide)
  have hsuffix : '#' ∉ (q ++ "&timestamp=" ++ toString nowMillis ++ "&sign=" ++
      generate_dingtalk_sign sec2 (toString nowMillis)).data := by
    intro hm
    simp only [String.data_append, List.mem_append] at hm
    rcases hm with (((hm | hm) | hm) | hm) | hm
    · exact hq hm
    · revert hm; decide
    · exact absurd (toString_nat_digits nowMillis _ hm) (by decide)
    · revert hm; decide
    · exact hsign _ hm rfl
  have hdata : (b ++ "?" ++ q ++ "&timestamp=" ++ toString nowMillis ++ "&sign=" ++
      generate_dingtalk_sign sec2 (toString nowMillis)).data =
      b.data ++ '?' :: (q ++ "&timestamp=" ++ toString nowMillis ++ "&sign=" ++
        generate_dingtalk_sign sec2 (toString nowMillis)).data := by
    simp [String.data_append]
  rw [hdata]
  unfold urlparseLite
  rw [splitFirst_of_not_mem '#' _ (by
    intro hm
    simp only [List.mem_append, List.mem_cons] at hm
    rcases hm with hm | hm | hm
    · exact hb2 hm
    · exact absurd hm (by decide)
    · exact hsuffix hm)]
  dsimp only
  rw [splitFirst_append '?' b.data _ hb1]
  rfl

/-- Witness for C5: a DingTalk bot with secret `abc` and a webhook that
already carries an access token. -/
theorem dingtalk_sign_correct_witness :
    ((⟨"https://oapi.dingtalk.com/robot/send?access_token=tk", some "abc",
        none⟩ : BotConfig).secret = some "abc") ∧
    dingtalk_url
      ⟨"https://oapi.dingtalk.com/robot/send?access_token=tk", some "abc", none⟩
      1700000000000 =
      "https://oapi.dingtalk.com/robot/send?access_token=tk" ++ "&timestamp=" ++
        toString 1700000000000 ++ "&sign=" ++
        generate_dingtalk_sign "abc" (toString 1700000000000) :=
  ⟨rfl,
   (dingtalk_sign_correct "abc" "1700000000000" "abc"
      ⟨"https://oapi.dingtalk.com/robot/send?access_token=tk", some "abc", none⟩
      1700000000000 "https://oapi.dingtalk.com/robot/send" "access_token=tk"
      rfl rfl (by decide) (by decide) (by decide)).2.2.1⟩

/-! ## Round-trip lemmas for query strings -/





theorem safeChar_ne (c : Char) (h : safeChar c) :
    c ≠ '&' ∧ c ≠ '=' ∧ c ≠ '%' ∧ c ≠ '+' ∧ c ≠ '#' ∧ c ≠ '?' ∧ c ≠ ' ' := by
  rcases h with h | h | h | h | h
  · exact ⟨fun he => by rw [he] at h; exact absurd h (by decide),
      fun he => by rw [he] at h; exact absurd h (by decide),
      fun he => by rw [he] at h; exact absurd h (by decide),
      fun he => by rw [he] at h; exact absurd h (by decide),
      fun he => by rw [he] at h; exact absurd h (by decide),
      fun he => by rw [he] at h; exact absurd h (by decide),
      fun he => by rw [he] at h; exact absurd h (by decide)⟩
  all_goals subst h
  all_goals exact ⟨by decide, by decide, by decide, by decide, by decide,
    by decide, by decide⟩

theorem quotePlusChar_safe (c : Char) (h : safeChar c) : quotePlusChar c = [c] := by
  unfold quotePlusChar
  rw [if_neg (fun he => (safeChar_ne c h).2.2.2.2.2.2 he)]
  rw [if_pos (by simpa [safeChar] using h)]

theorem quotePlusL_id : ∀ l : List Char, (∀ c ∈ l, safeChar c) → quotePlusL l = l := by
  intro l
  induction l with
  | nil => intro _; rfl
  | cons c rest ih =>
    intro h
    unfold quotePlusL at ih ⊢
    simp only [List.map_cons, List.flatten_cons,
      quotePlusChar_safe c (h c (List.mem_cons_self c rest)),
      ih (fun c' hc' => h c' (List.mem_cons_of_mem c hc'))]
    rfl

theorem unquoteCharsAux_id :
    ∀ (fuel : Nat) (l : List Char), (∀ c ∈ l, c ≠ '+' ∧ c ≠ '%') →
      unquoteCharsAux fuel l = l := by
  intro fuel
  induction fuel with
  | zero => intro l _; rfl
  | succ fuel ih =>
    intro l h
    cases l with
    | nil => rfl
    | cons c rest =>
      have hc := h c (List.mem_cons_self c rest)
      have hrest : ∀ c' ∈ rest, c' ≠ '+' ∧ c' ≠ '%' :=
        fun c' hc' => h c' (List.mem_cons_of_mem c hc')
      cases rest with
      | nil => simp [unquoteCharsAux, hc.1, hc.2, ih _ hrest]
      | cons d rest' =>
        cases rest' with
        | nil => simp [unquoteCharsAux, hc.1, hc.2, ih _ hrest]
        | cons d2 rest'' => simp [unquoteCharsAux, hc.1, hc.2, ih _ hrest]

theorem unquoteChars_id (l : List Char) (h : ∀ c ∈ l, c ≠ '+' ∧ c ≠ '%') :
    unquoteChars l = l := unquoteCharsAux_id l.length l h

theorem splitAll_ne_nil (sep : Char) : ∀ l : List Char, splitAll sep l ≠ [] := by
  intro l
  cases l with
  | nil => simp [splitAll]
  | cons c rest =>
    unfold splitAll
    rcases hs : splitAll sep rest with _ | ⟨p, ps⟩
    · simp
    · by_cases hc : c = sep <;> simp [hc]

theorem splitAll_no_sep (sep : Char) :
    ∀ l : List Char, sep ∉ l → splitAll sep l = [l] := by
  intro l
  induction l with
  | nil => intro _; rfl
  | cons c rest ih =>
    intro h
    have hc : ¬ c = sep := fun hcs => h (hcs ▸ List.mem_cons_self c rest)
    rw [splitAll, ih (fun hm => h (List.mem_cons_of_mem c hm))]
    simp [hc]

theorem splitAll_append (sep : Char) :
    ∀ x r : List Char, sep ∉ x →
      splitAll sep (x ++ sep :: r) = x :: splitAll sep r := by
  intro x
  induction x with
  | nil =>
    intro r _
    rw [List.nil_append, splitAll]
    rcases hs : splitAll sep r with _ | ⟨p, ps⟩
    · exact absurd hs (splitAll_ne_nil sep r)
    · simp
  | cons c x' ih =>
    intro r h
    have hc : ¬ c = sep := fun hcs => h (hcs ▸ List.mem_cons_self c x')
    rw [List.cons_append, splitAll, ih r (fun hm => h (List.mem_cons_of_mem c hm))]
    simp [hc]

theorem splitAll_joinSep (sep : Char) :
    ∀ parts : List (List Char), parts ≠ [] → (∀ x ∈ parts, sep ∉ x) →
      splitAll sep (joinSep sep parts) = parts := by
  intro parts
  induction parts with
  | nil => intro h _; exact absurd rfl h
  | cons x rest ih =>
    intro _ hsep
    cases rest with
    | nil =>
      rw [show joinSep sep [x] = x from rfl]
      exact splitAll_no_sep sep x (hsep x (List.mem_cons_self x []))
    | cons y rest' =>
      rw [show joinSep sep (x :: y :: rest') = x ++ sep :: joinSep sep (y :: rest')
        from rfl]
      rw [splitAll_append sep x _ (hsep x (List.mem_cons_self x _))]
      rw [ih (by simp) (fun z hz => hsep z (List.mem_cons_of_mem x hz))]

theorem joinSep_append (sep : Char) :
    ∀ xs ys : List (List Char), xs ≠ [] → ys ≠ [] →
      joinSep sep (xs ++ ys) = joinSep sep xs ++ sep :: joinSep sep ys := by
  intro xs
  induction xs with
  | nil => intro ys h _; exact absurd rfl h
  | cons x xs' ih =>
    intro ys _ hys
    cases xs' with
    | nil =>
      cases ys with
      | nil => exact absurd rfl hys
      | cons y ys' =>
        rw [List.singleton_append,
          show joinSep sep (x :: y :: ys') = x ++ sep :: joinSep sep (y :: ys')
            from rfl]
        rfl
    | cons x2 xs'' =>
      rw [List.cons_append,
        show joinSep sep (x :: ((x2 :: xs'') ++ ys)) =
          x ++ sep :: joinSep sep ((x2 :: xs'') ++ ys) from rfl,
        ih ys (by simp) hys,
        show joinSep sep (x :: x2 :: xs'') = x ++ sep :: joinSep sep (x2 :: xs'')
          from rfl]
      simp

theorem mem_joinSep (sep : Char) :
    ∀ (xss : List (List Char)) (c : Char), c ∈ joinSep sep xss →
      c = sep ∨ ∃ x ∈ xss, c ∈ x := by
  intro xss
  induction xss with
  | nil => intro c hc; cases hc
  | cons x rest ih =>
    intro c hc
    cases rest with
    | nil =>
      exact Or.inr ⟨x, List.mem_cons_self x [], hc⟩
    | cons y rest' =>
      rw [show joinSep sep (x :: y :: rest') = x ++ sep :: joinSep sep (y :: rest')
        from rfl] at hc
      rcases List.mem_append.mp hc with hm | hm
      · exact Or.inr ⟨x, List.mem_cons_self x _, hm⟩
      · rcases List.mem_cons.mp hm with hm | hm
        · exact Or.inl hm
        · rcases ih c hm with hm | ⟨z, hz, hcz⟩
          · exact Or.inl hm
          · exact Or.inr ⟨z, List.mem_cons_of_mem x hz, hcz⟩

theorem parsePair_render (k v : List Char) (_hk : k ≠ []) (hv : v ≠ [])
    (hks : ∀ c ∈ k, safeChar c) (hvs : ∀ c ∈ v, safeChar c) :
    parsePair (k ++ '=' :: v) = some (k, v) := by
  unfold parsePair
  rw [if_neg (by simp)]
  rw [splitFirst_append '=' k v
    (fun hm => (safeChar_ne _ (hks _ hm)).2.1 rfl)]
  dsimp only
  rw [if_neg hv]
  rw [unquoteChars_id k (fun c hc =>
      ⟨(safeChar_ne c (hks c hc)).2.2.2.1, (safeChar_ne c (hks c hc)).2.2.1⟩),
    unquoteChars_id v (fun c hc =>
      ⟨(safeChar_ne c (hvs c hc)).2.2.2.1, (safeChar_ne c (hvs c hc)).2.2.1⟩)]

theorem qsInsert_not_mem (k : List Char) (v : List Char) :
    ∀ d : List (List Char × List (List Char)), k ∉ d.map Prod.fst →
      qsInsert k v d = d ++ [(k, [v])] := by
  intro d
  induction d with
  | nil => intro _; rfl
  | cons p rest ih =>
    intro h
    obtain ⟨k', vs⟩ := p
    have hk' : ¬ k' = k := by
      intro he
      exact h (by simp [he])
    simp only [qsInsert, hk', if_false, List.cons_append]
    rw [ih (fun hm => h (by simp [hm]))]

theorem dictSet_not_mem (k : List Char) (vs : List (List Char)) :
    ∀ d : List (List Char × List (List Char)), k ∉ d.map Prod.fst →
      dictSet k vs d = d ++ [(k, vs)] := by
  intro d
  induction d with
  | nil => intro _; rfl
  | cons p rest ih =>
    intro h
    obtain ⟨k', vs'⟩ := p
    have hk' : ¬ k' = k := by
      intro he
      exact h (by simp [he])
    simp only [dictSet, hk', if_false, List.cons_append]
    rw [ih (fun hm => h (by simp [hm]))]

theorem foldl_qsInsert :
    ∀ (pairs : List (List Char × List Char))
      (d : List (List Char × List (List Char))),
      (pairs.map Prod.fst).Nodup →
      (∀ p ∈ pairs, p.1 ∉ d.map Prod.fst) →
      pairs.foldl (fun d p => qsInsert p.1 p.2 d) d =
        d ++ pairs.map (fun p => (p.1, [p.2])) := by
  intro pairs
  induction pairs with
  | nil => intro d _ _; simp
  | cons p rest ih =>
    intro d hnd hdisj
    simp only [List.foldl_cons]
    rw [qsInsert_not_mem p.1 p.2 d (hdisj p (List.mem_cons_self p rest))]
    rw [ih (d ++ [(p.1, [p.2])]) (List.nodup_cons.mp (by simpa using hnd)).2 ?_]
    · simp
    · intro p' hp' hm
      simp only [List.map_append, List.mem_append, List.map_cons, List.map_nil,
        List.mem_singleton] at hm
      rcases hm with hm | hm
      · exact hdisj p' (List.mem_cons_of_mem p hp') hm
      · exact (List.nodup_cons.mp (by simpa using hnd)).1
          (hm ▸ List.mem_map_of_mem Prod.fst hp')

theorem flatten_map_singleton {α β : Type} (f : α → β) :
    ∀ l : List α, (l.map (fun x => [f x])).flatten = l.map f := by
  intro l
  induction l with
  | nil => rfl
  | cons x rest ih => simp [ih]



theorem renderQuery_chars (ps : List (List Char × List Char))
    (hsafe : ∀ p ∈ ps, (∀ c ∈ p.1, safeChar c) ∧ (∀ c ∈ p.2, safeChar c)) :
    ∀ c ∈ renderQuery ps, c = '&' ∨ c = '=' ∨ safeChar c := by
  intro c hc
  rcases mem_joinSep '&' _ c hc with h | ⟨x, hx, hcx⟩
  · exact Or.inl h
  · obtain ⟨p, hp, hpx⟩ := List.mem_map.mp hx
    subst hpx
    rcases List.mem_append.mp hcx with hm | hm
    · exact Or.inr (Or.inr ((hsafe p hp).1 c hm))
    · rcases List.mem_cons.mp hm with hm | hm
      · exact Or.inr (Or.inl hm)
      · exact Or.inr (Or.inr ((hsafe p hp).2 c hm))

theorem filterMap_eq_map_of {α β : Type} (g : α → Option β) (f : α → β) :
    ∀ l : List α, (∀ a ∈ l, g a = some (f a)) → l.filterMap g = l.map f := by
  intro l
  induction l with
  | nil => intro _; rfl
  | cons a rest ih =>
    intro h
    rw [List.filterMap_cons, h a (List.mem_cons_self a rest), List.map_cons,
      ih (fun a' ha' => h a' (List.mem_cons_of_mem a ha'))]

/-- `parse_qs` recovers exactly the pairs of a well-formed query string
over the unreserved alphabet (nonempty keys and values, distinct keys). -/
theorem parse_qs_render (ps : List (List Char × List Char))
    (hps : ps ≠ [])
    (hsafe : ∀ p ∈ ps, p.1 ≠ [] ∧ p.2 ≠ [] ∧
      (∀ c ∈ p.1, safeChar c) ∧ (∀ c ∈ p.2, safeChar c))
    (hnd : (ps.map Prod.fst).Nodup) :
    parse_qs (renderQuery ps) = ps.map (fun p => (p.1, [p.2])) := by
  unfold parse_qs renderQuery
  rw [splitAll_joinSep '&' _ (by simpa using hps) ?_]
  · rw [List.filterMap_map]
    rw [filterMap_eq_map_of _ (fun p => (p.1, p.2)) ps (fun p hp => by
      obtain ⟨h1, h2, h3, h4⟩ := hsafe p hp
      exact parsePair_render p.1 p.2 h1 h2 h3 h4)]
    rw [show ps.map (fun p => (p.1, p.2)) = ps by
      rw [show (fun (p : List Char × List Char) => (p.1, p.2)) = id from rfl,
        List.map_id]]
    exact foldl_qsInsert ps [] hnd (fun p _ h => by cases h)
  · intro x hx hm
    obtain ⟨p, hp, hpx⟩ := List.mem_map.mp hx
    subst hpx
    obtain ⟨-, -, h3, h4⟩ := hsafe p hp
    rcases List.mem_append.mp hm with hmm | hmm
    · exact (safeChar_ne _ (h3 _ hmm)).1 rfl
    · rcases List.mem_cons.mp hmm with hmm | hmm
      · exact absurd hmm (by decide)
      · exact (safeChar_ne _ (h4 _ hmm)).1 rfl

/-! ## Claim C6 -/



/-- Claim C6 as stated is false on the merge clause: a pre-existing query
parameter with an empty value (`a=`) is dropped by the re-encoding —
`parse_qs` discards blank values — so it is not preserved in the signed
URL. -/
theorem feishu_merge_blank_param_counterexample :
    feishu_signed_url "https://open.feishu.cn/hook?a=" "abc" 1700000000 =
      "https://open.feishu.cn/hook?timestamp=1700000000&sign=vEg8s1sKF2lvRc7VeEdo8hrgzIxZkX%2BZgxZ3JifYMjE%3D" ∧
    containsStr "a=" "https://open.feishu.cn/hook?a=" ∧
    ¬ containsStr "a="
      (feishu_signed_url "https://open.feishu.cn/hook?a=" "abc" 1700000000) := by
  refine ⟨by decide, by decide, by decide⟩

/-- Claim C6 (amended): the B-type (Feishu) signature is exactly the
base64 HMAC-SHA256 the spec describes, with no further URL-encoding of
the returned string (witnessed by the pinned golden value), and when a
secret is configured `timestamp` and `sign` are merged into the webhook
URL's existing query string, preserving every pre-existing query
parameter with a non-empty value — proved byte-for-byte for query
strings over the unreserved alphabet. Parameters with empty values are
dropped by the re-encoding (see the counterexample), and the sign value
itself is percent-encoded on its way into the URL by `urlencode`. -/
theorem feishu_merge_preserves_params (secret : String) (nowSec : Nat)
    (b qs : String) (ps : List (List Char × List Char))
    (hb1 : '?' ∉ b.data) (hb2 : '#' ∉ b.data)
    (hqs : qs.data = renderQuery ps)
    (hps : ps ≠ [])
    (hsafe : ∀ p ∈ ps, p.1 ≠ [] ∧ p.2 ≠ [] ∧
      (∀ c ∈ p.1, safeChar c) ∧ (∀ c ∈ p.2, safeChar c))
    (hnd : (ps.map Prod.fst).Nodup)
    (hts : ("timestamp" : String).data ∉ ps.map Prod.fst)
    (hsg : ("sign" : String).data ∉ ps.map Prod.fst) :
    generate_feishu_sign secret (toString nowSec) =
      feishu_sign_specified secret (toString nowSec) ∧
    generate_feishu_sign "abc" "1700000000" =
      "vEg8s1sKF2lvRc7VeEdo8hrgzIxZkX+ZgxZ3JifYMjE=" ∧
    feishu_signed_url (b ++ "?" ++ qs) secret nowSec =
      b ++ "?" ++ qs ++ "&timestamp=" ++ toString nowSec ++ "&sign=" ++
        quotePlus (generate_feishu_sign secret (toString nowSec)) := by
  refine ⟨rfl, by decide, ?_⟩
  have hsafe2 : ∀ p ∈ ps, (∀ c ∈ p.1, safeChar c) ∧ (∀ c ∈ p.2, safeChar c) :=
    fun p hp => ⟨(hsafe p hp).2.2.1, (hsafe p hp).2.2.2⟩
  have hwdata : (b ++ "?" ++ qs).data = b.data ++ '?' :: qs.data := by
    simp [String.data_append]
  have hqNoHash : '#' ∉ qs.data := by
    rw [hqs]
    intro hm
    rcases renderQuery_chars ps hsafe2 '#' hm with h | h | h
    · exact absurd h (by decide)
    · exact absurd h (by decide)
    · exact (safeChar_ne _ h).2.2.2.2.1 rfl
  have hparse : urlparseLite (b ++ "?" ++ qs).data =
      ⟨b.data, qs.data, []⟩ := by
    unfold urlparseLite
    rw [hwdata]
    rw [splitFirst_of_not_mem '#' _ (by
      intro hm
      rcases List.mem_append.mp hm with hm | hm
      · exact hb2 hm
      · rcases List.mem_cons.mp hm with hm | hm
        · exact absurd hm (by decide)
        · exact hqNoHash hm)]
    dsimp only
    rw [splitFirst_append '?' b.data _ hb1]
    rfl
  have htsd : ∀ c ∈ (toString nowSec).data, safeChar c :=
    fun c hc => Or.inl (isDigit_isAlphanum (toString_nat_digits nowSec c hc))
  have hDkeys : (ps.map (fun p => (p.1, [p.2]))).map Prod.fst = ps.map Prod.fst := by
    rw [List.map_map]
    rfl
  have hdict1 : dictSet ("timestamp" : String).data [(toString nowSec).data]
      (ps.map (fun p => (p.1, [p.2]))) =
      ps.map (fun p => (p.1, [p.2])) ++
        [(("timestamp" : String).data, [(toString nowSec).data])] := by
    apply dictSet_not_mem
    rw [hDkeys]
    exact hts
  have hdict2 : dictSet ("sign" : String).data
      [(generate_feishu_sign secret (toString nowSec)).data]
      (ps.map (fun p => (p.1, [p.2])) ++
        [(("timestamp" : String).data, [(toString nowSec).data])]) =
      ps.map (fun p => (p.1, [p.2])) ++
        [(("timestamp" : String).data, [(toString nowSec).data]),
         (("sign" : String).data,
           [(generate_feishu_sign secret (toString nowSec)).data])] := by
    rw [dictSet_not_mem _ _ _ (by
      rw [List.map_append, hDkeys]
      intro hm
      rcases List.mem_append.mp hm with hm | hm
      · exact hsg hm
      · simp only [List.map_cons, List.map_nil, List.mem_singleton] at hm
        exact absurd hm (by decide))]
    simp
  have hfields : (ps.map (fun p => (p.1, [p.2]))).map
      (fun p => p.2.map (fun v => quotePlusL p.1 ++ '=' :: quotePlusL v)) =
      ps.map (fun p => [p.1 ++ '=' :: p.2]) := by
    rw [List.map_map]
    apply List.map_congr_left
    intro p hp
    show [quotePlusL p.1 ++ '=' :: quotePlusL p.2] = [p.1 ++ '=' :: p.2]
    rw [quotePlusL_id p.1 (hsafe p hp).2.2.1, quotePlusL_id p.2 (hsafe p hp).2.2.2]
  have hencode : urlencodeDoseq
      (ps.map (fun p => (p.1, [p.2])) ++
        [(("timestamp" : String).data, [(toString nowSec).data]),
         (("sign" : String).data,
           [(generate_feishu_sign secret (toString nowSec)).data])]) =
      renderQuery ps ++ '&' ::
        ((("timestamp" : String).data ++ '=' :: (toString nowSec).data) ++ '&' ::
          (("sign" : String).data ++ '=' ::
            quotePlusL (generate_feishu_sign secret (toString nowSec)).data)) := by
    unfold urlencodeDoseq
    rw [List.map_append, List.flatten_append, hfields, flatten_map_singleton]
    rw [show ([(("timestamp" : String).data, [(toString nowSec).data]),
         (("sign" : String).data,
           [(generate_feishu_sign secret (toString nowSec)).data])].map
        (fun p => p.2.map (fun v => quotePlusL p.1 ++ '=' :: quotePlusL v))).flatten =
        [quotePlusL ("timestamp" : String).data ++ '=' ::
          quotePlusL (toString nowSec).data,
         quotePlusL ("sign" : String).data ++ '=' ::
          quotePlusL (generate_feishu_sign secret (toString nowSec)).data] from rfl]
    rw [show quotePlusL ("timestamp" : String).data = ("timestamp" : String).data
      from by decide]
    rw [show quotePlusL ("sign" : String).data = ("sign" : String).data
      from by decide]
    rw [quotePlusL_id (toString nowSec).data htsd]
    rw [joinSep_append '&' _ _ (by
        intro hnil
        exact hps (by simpa using congrArg List.length hnil))
      (by simp)]
    rfl
  have hq2ne : renderQuery ps ++ '&' ::
      ((("timestamp" : String).data ++ '=' :: (toString nowSec).data) ++ '&' ::
        (("sign" : String).data ++ '=' ::
          quotePlusL (generate_feishu_sign secret (toString nowSec)).data)) ≠
      ([] : List Char) := by
    intro hnil
    have := congrArg List.length hnil
    simp at this
  unfold feishu_signed_url
  rw [hparse]
  dsimp only
  rw [hqs, parse_qs_render ps hps hsafe hnd, hdict1, hdict2, hencode]
  unfold urlunparseLite
  dsimp only
  rw [if_neg hq2ne, if_pos rfl]
  apply String.ext
  simp [String.data_append, hqs,
    show (quotePlus (generate_feishu_sign secret (toString nowSec))).data =
      quotePlusL (generate_feishu_sign secret (toString nowSec)).data from rfl,
    show ("?" : String).data = ['?'] from rfl,
    show ("&timestamp=" : String).data =
      ['&', 't', 'i', 'm', 'e', 's', 't', 'a', 'm', 'p', '='] from rfl,
    show ("&sign=" : String).data = ['&', 's', 'i', 'g', 'n', '='] from rfl,
    show ("timestamp" : String).data =
      ['t', 'i', 'm', 'e', 's', 't', 'a', 'm', 'p'] from rfl,
    show ("sign" : String).data = ['s', 'i', 'g', 'n'] from rfl]

/-- Witness for C6: a Feishu webhook already carrying `x=1&y=2`. -/
theorem feishu_merge_preserves_params_witness :
    feishu_signed_url ("https://open.feishu.cn/open-apis/bot/v2/hook/abc" ++ "?" ++
        "x=1&y=2") "abc" 1700000000 =
      "https://open.feishu.cn/open-apis/bot/v2/hook/abc" ++ "?" ++ "x=1&y=2" ++
        "&timestamp=" ++ toString 1700000000 ++ "&sign=" ++
        quotePlus (generate_feishu_sign "abc" (toString 1700000000)) :=
  (feishu_merge_preserves_params "abc" 1700000000
    "https://open.feishu.cn/open-apis/bot/v2/hook/abc" "x=1&y=2"
    [(['x'], ['1']), (['y'], ['2'])]
    (by decide) (by decide) (by decide) (by decide)
    (by
      intro p hp
      rcases List.mem_cons.mp hp with hp | hp
      · subst hp
        exact ⟨by decide, by decide, by decide, by decide⟩
      · rcases List.mem_cons.mp hp with hp | hp
        · subst hp
          exact ⟨by decide, by decide, by decide, by decide⟩
        · cases hp)
    (by decide) (by decide) (by decide)).2.2

end GithubMonitor


